import Mathlib

/-!
# ERDMA exporter: the collection pipeline

A shallow embedding of `collector.go` (device enumeration, version probe,
statistics parsing, metric emission and the `Collect` orchestration) together
with the properties of the pipeline that the specification states.

Conventions of the embedding.

* A Go `string` is a list of Unicode code points (`GoString`); the outputs of the
  external commands are taken to be valid UTF-8 text.  Lengths that Go measures
  in bytes (the scanner's token limit) are measured with `utf8Len`.
* A Go result pair `(T, error)` is a Lean pair `T × Option Err`; a `nil` slice or
  map is the empty list.
* The channel `ch` a method sends on is the list of values sent, in order.
* The external commands are inputs: a `CmdResult` is `none` when `cmd.Run()`
  returned an error and `some stdout` otherwise.
* Logging has no effect on any result and is left out.
-/

namespace Erdma

/-- A Go string, as the sequence of its code points. -/
abbrev GoString := List Char

/-! ## Library models: `unicode`, `strings`, `strconv`, `bufio` -/

/-- The predicate `unicode.IsSpace`: in Latin-1 the characters
`'\t' '\n' '\v' '\f' '\r' ' '`, U+0085 and U+00A0; beyond it the `White_Space`
property (U+1680, U+2000..U+200A, U+2028, U+2029, U+202F, U+205F, U+3000). -/
def isSpace (c : Char) : Bool :=
  let n := c.toNat
  n == 0x09 || n == 0x0A || n == 0x0B || n == 0x0C || n == 0x0D || n == 0x20 ||
  n == 0x85 || n == 0xA0 || n == 0x1680 || (0x2000 ≤ n && n ≤ 0x200A) ||
  n == 0x2028 || n == 0x2029 || n == 0x202F || n == 0x205F || n == 0x3000

/-- Removal of the trailing white space of a string (`strings.TrimRightFunc`
with `unicode.IsSpace`). -/
def trimRight : GoString → GoString
  | [] => []
  | c :: cs =>
    let r := trimRight cs
    if r.isEmpty && isSpace c then [] else c :: r

/-- The function `strings.TrimSpace`: the string without its leading and
trailing white space, as defined by Unicode. -/
def TrimSpace (s : GoString) : GoString :=
  trimRight (s.dropWhile isSpace)

/-- The function `strings.Split` for a one-character separator: all the
substrings between the separators, `n + 1` of them when the separator occurs
`n` times. -/
def Split : GoString → Char → List GoString
  | [], _ => [[]]
  | c :: cs, sep =>
    if c = sep then [] :: Split cs sep
    else
      match Split cs sep with
      | [] => [[c]]
      | p :: ps => (c :: p) :: ps

/-- The function `strings.Fields`: the maximal runs of characters that are not
white space, in order; empty when the string holds only white space. -/
def Fields : GoString → List GoString
  | [] => []
  | [c] => if isSpace c then [] else [[c]]
  | c :: d :: ds =>
    if isSpace c then Fields (d :: ds)
    else if isSpace d then [c] :: Fields (d :: ds)
    else
      match Fields (d :: ds) with
      | [] => [[c]]
      | f :: fs => (c :: f) :: fs

/-- The errors of `strconv`: `ErrSyntax` and `ErrRange`. -/
inductive NumError where
  | ErrSyntax
  | ErrRange
deriving DecidableEq, Repr

/-- The largest `uint64`. -/
def maxUint64 : Nat := 2 ^ 64 - 1

/-- The digit loop of `strconv.ParseUint` for base 10 and bit size 64, on
`uint64` arithmetic: a character that is not a decimal digit is a syntax error
(letters are digits of value at least 10, the underscore is accepted in base 0
only); `n >= cutoff` means `n * 10` overflows; `n1 < n || n1 > maxVal` means
`n + d` overflows. -/
def parseUintLoop (cutoff maxVal : Nat) : Nat → GoString → Except NumError Nat
  | n, [] => .ok n
  | n, c :: cs =>
    if '0' ≤ c ∧ c ≤ '9' then
      let d := c.toNat - '0'.toNat
      if n ≥ cutoff then .error .ErrRange
      else
        let n10 := (n * 10) % 2 ^ 64
        let n1 := (n10 + d) % 2 ^ 64
        if n1 < n10 ∨ n1 > maxVal then .error .ErrRange
        else parseUintLoop cutoff maxVal n1 cs
    else .error .ErrSyntax

/-- The call `strconv.ParseUint(s, 10, 64)`. -/
def ParseUint (s : GoString) : Except NumError Nat :=
  if s = [] then .error .ErrSyntax
  else parseUintLoop (maxUint64 / 10 + 1) maxUint64 0 s

/-- The constant `bufio.MaxScanTokenSize`. -/
def MaxScanTokenSize : Nat := 64 * 1024

/-- The length in bytes of the UTF-8 encoding of a string. -/
def utf8Len (s : GoString) : Nat := (s.map Char.utf8Size).sum

/-- The lines of a text as `bufio.ScanLines` cuts them: each line ends at a
`'\n'`, which is not part of it; a last line without `'\n'` is a line when it
is not empty. -/
def rawLines : GoString → List GoString
  | [] => []
  | c :: cs =>
    if c = '\n' then [] :: rawLines cs
    else
      match rawLines cs with
      | [] => [[c]]
      | l :: ls => (c :: l) :: ls

/-- The helper `dropCR` of `bufio.ScanLines`: one trailing `'\r'` is dropped. -/
def dropCR (l : GoString) : GoString :=
  if l.getLast? = some '\r' then l.dropLast else l

/-- The tokens a default `bufio.Scanner` yields for the given lines, and whether
it stopped with `bufio.ErrTooLong`: a line fits the buffer, which grows to
`MaxScanTokenSize` bytes, when it is shorter than that; at the first line that
does not fit, `Scan` returns false and `Err` is set. -/
def scanTokens : List GoString → List GoString × Bool
  | [] => ([], false)
  | l :: ls =>
    if utf8Len l ≥ MaxScanTokenSize then ([], true)
    else ((dropCR l) :: (scanTokens ls).1, (scanTokens ls).2)

/-- The run of `bufio.NewScanner(strings.NewReader(data))`: the successive
values of `scanner.Text()` and whether `scanner.Err()` is set afterwards. -/
def scanLines (data : GoString) : List GoString × Bool :=
  scanTokens (rawLines data)

/-! ## Results of commands and errors -/

/-- The outcome of running an external command: `none` when `cmd.Run()` returned
an error, `some stdout` otherwise. -/
abbrev CmdResult := Option GoString

/-- The errors the functions of the collector return. -/
inductive Err where
  /-- The external command failed to execute. -/
  | exec
  /-- The output of the version command did not match. -/
  | parse
  /-- The scanner met a line longer than its buffer. -/
  | scan
deriving DecidableEq, Repr

/-! ## Statistics parsing: `getDeviceStats` -/

/-- A `map[string]uint64`, as an association list whose keys are distinct. -/
abbrev Stats := List (GoString × Nat)

/-- The assignment `stats[key] = val`. -/
def Stats.store (stats : Stats) (key : GoString) (val : Nat) : Stats :=
  (key, val) :: stats.filter (fun e => e.1 ≠ key)

/-- The body of the scanning loop of `getDeviceStats` on one line. -/
def statsLine (stats : Stats) (text : GoString) : Stats :=
  let line := TrimSpace text
  if line = [] then stats
  else
    let parts := Split line ':'
    if parts.length ≠ 2 then stats
    else
      let key := TrimSpace (parts.getD 0 [])
      let valStr := TrimSpace (parts.getD 1 [])
      match ParseUint valStr with
      | .error _ => stats
      | .ok val => stats.store key val

/-- The function `getDeviceStats`, given the outcome of `eadm stat -d device`. -/
def getDeviceStats (run : CmdResult) : Stats × Option Err :=
  match run with
  | none => ([], some .exec)
  | some output =>
    let sc := scanLines output
    (sc.1.foldl statsLine [], if sc.2 then some .scan else none)

/-! ## Device enumeration: `getDevices` -/

/-- An ERDMA device. -/
structure Device where
  Name : GoString
  GUID : GoString
deriving DecidableEq, Repr

/-- The body of the scanning loop of `getDevices` on one line; the state is the
slice `devices` and the counter `lineNum`. -/
def devicesLine (st : List Device × Nat) (text : GoString) : List Device × Nat :=
  let lineNum := st.2 + 1
  let line := TrimSpace text
  if lineNum ≤ 2 then (st.1, lineNum)
  else if line = [] then (st.1, lineNum)
  else
    let fields := Fields line
    if fields.length ≥ 2 then
      (st.1 ++ [{ Name := fields.getD 0 [], GUID := fields.getD 1 [] }], lineNum)
    else (st.1, lineNum)

/-- The function `getDevices`, given the outcome of `ibv_devices`. -/
def getDevices (run : CmdResult) : List Device × Option Err :=
  match run with
  | none => ([], some .exec)
  | some output =>
    let sc := scanLines output
    let devices := (sc.1.foldl devicesLine ([], 0)).1
    if sc.2 then (devices, some .scan) else (devices, none)

/-! ## Version probe: `getVersion`

The pattern of `getVersion` is a sequence of literal characters followed by two
greedy repetitions of a character class, the second one captured.  `matchHere`
is a backtracking matcher for such sequences with the preference order of Go's
`regexp` (a repetition first tries its longest run), and `findFrom` tries the
start positions from left to right, so that the match found is the leftmost one.
-/

/-- An item of a pattern: a literal character, or `x+` for a character class
`x`, inside the capture group or not. -/
inductive Node where
  | lit (c : Char)
  | plus (cls : Char → Bool) (capture : Bool)

/-- The first result of `f k` for `k = n, n - 1, ..., 1`. -/
def firstDown {α : Type} (f : Nat → Option α) : Nat → Option α
  | 0 => none
  | n + 1 =>
    match f (n + 1) with
    | some r => some r
    | none => firstDown f n

/-- The match of a pattern at the start of a text: the text matched and the
text of the capture group. -/
def matchHere : List Node → GoString → Option (GoString × Option GoString)
  | [], _ => some ([], none)
  | .lit c :: ns, s =>
    match s with
    | [] => none
    | x :: xs =>
      if x = c then (matchHere ns xs).map (fun r => (x :: r.1, r.2)) else none
  | .plus cls cap :: ns, s =>
    firstDown
      (fun k => (matchHere ns (s.drop k)).map
        (fun r => (s.take k ++ r.1, if cap then some (s.take k) else r.2)))
      (s.takeWhile cls).length

/-- The leftmost match of a pattern in a text. -/
def findFrom (re : List Node) : GoString → Option (GoString × Option GoString)
  | [] => matchHere re []
  | x :: xs =>
    match matchHere re (x :: xs) with
    | some r => some r
    | none => findFrom re xs

/-- The method `FindStringSubmatch` for a pattern with one capture group: empty
when there is no match, else the text of the match and the text of the group. -/
def FindStringSubmatch (re : List Node) (s : GoString) : List GoString :=
  match findFrom re s with
  | none => []
  | some (whole, cap) => [whole, cap.getD []]

/-- The class `\s` of Go's `regexp`: `[\t\n\f\r ]`. -/
def reSpace (c : Char) : Bool :=
  c == '\t' || c == '\n' || c == Char.ofNat 0x0C || c == '\r' || c == ' '

/-- The literal text the pattern of `getVersion` starts with. -/
def versionLabel : GoString := "Query kernel driver version:".toList

/-- The pattern of `getVersion` (the literal text, then `\s+(\S+)`). -/
def versionRe : List Node :=
  versionLabel.map Node.lit ++
    [Node.plus reSpace false, Node.plus (fun c => !reSpace c) true]

/-- The function `getVersion`, given the outcome of `eadm ver`. -/
def getVersion (run : CmdResult) : GoString × Option Err :=
  match run with
  | none => ([], some .exec)
  | some output =>
    let found := FindStringSubmatch versionRe output
    if found.length > 1 then (found.getD 1 [], none)
    else ([], some .parse)

/-! ## Node name: `getNodeName` -/

/-- The function `getNodeName`, given the value of `NODE_NAME` in the
environment (`none` when it is not set, for which `os.Getenv` returns the empty
string) and the result of `os.Hostname()`. -/
def getNodeName (nodeNameVar : Option GoString) (host : GoString × Option Err) :
    GoString :=
  let nodeName := nodeNameVar.getD []
  if nodeName ≠ [] then nodeName
  else if host.2 ≠ none then "unknown".toList
  else host.1

/-! ## Descriptors and samples -/

/-- A `prometheus.Desc`: fully-qualified name, help text and label names. -/
structure Desc where
  fqName : String
  help : String
  variableLabels : List String
deriving DecidableEq, Repr

/-- The constant `namespace` of `main.go`. -/
def namespaceName : String := "erdma"

/-- The function `prometheus.BuildFQName`: the non-empty parts joined by `_`,
and the empty string when the name is empty. -/
def BuildFQName (ns subsystem name : String) : String :=
  if name = "" then ""
  else
    (if ns = "" then "" else ns ++ "_") ++
    (if subsystem = "" then "" else subsystem ++ "_") ++ name

/-- The call `prometheus.NewDesc(fqName, help, variableLabels, nil)`. -/
def NewDesc (fqName help : String) (variableLabels : List String) : Desc :=
  { fqName := fqName, help := help, variableLabels := variableLabels }

/-- The type `prometheus.ValueType`, for the two values the collector uses. -/
inductive ValueType where
  | CounterValue
  | GaugeValue
deriving DecidableEq, Repr

/-- A constant metric, as `prometheus.MustNewConstMetric` builds it.  The value
is a `float64`; every value the collector sends is a natural number, given here
exactly. -/
structure Sample where
  desc : Desc
  valueType : ValueType
  value : Nat
  labelValues : List GoString
deriving DecidableEq, Repr

/-- The call `prometheus.MustNewConstMetric(desc, valueType, value, labelValues...)`. -/
def MustNewConstMetric (desc : Desc) (valueType : ValueType) (value : Nat)
    (labelValues : List GoString) : Sample :=
  { desc := desc, valueType := valueType, value := value, labelValues := labelValues }

/-- The number of low bits of `v` that do not fit a 53-bit significand, for `v`
below `2 ^ (53 + fuel)`. -/
def excessBits : Nat → Nat → Nat
  | 0, _ => 0
  | fuel + 1, v => if v < 2 ^ 53 then 0 else excessBits fuel (v / 2) + 1

/-- The conversion `float64(v)` of a `uint64`: the nearest number with a 53-bit
significand, a tie going to the even significand. -/
def float64OfUint64 (v : Nat) : Nat :=
  let e := excessBits 11 v
  let q := v / 2 ^ e
  let r := v % 2 ^ e
  let half := 2 ^ e / 2
  let q1 := if r > half ∨ (r = half ∧ 0 < e ∧ q % 2 = 1) then q + 1 else q
  q1 * 2 ^ e

/-- The collector: one descriptor for the version, one for the device identity
and one for each statistics counter. -/
structure ErdmaCollector where
  versionDesc : Desc
  deviceGUIDDesc : Desc
  listenCreateCntDesc : Desc
  listenIpv6CntDesc : Desc
  listenSuccessCntDesc : Desc
  listenFailedCntDesc : Desc
  listenDestroyCntDesc : Desc
  acceptTotalCntDesc : Desc
  acceptSuccessCntDesc : Desc
  acceptFailedCntDesc : Desc
  rejectCntDesc : Desc
  rejectFailedCntDesc : Desc
  connectTotalCntDesc : Desc
  connectSuccessCntDesc : Desc
  connectFailedCntDesc : Desc
  connectTimeoutCntDesc : Desc
  connectResetCntDesc : Desc
  cmdqSubmittedCntDesc : Desc
  cmdqCompCntDesc : Desc
  cmdqEqNotifyCntDesc : Desc
  cmdqEqEventCntDesc : Desc
  cmdqCqArmedCntDesc : Desc
  erdmaAeqEventCntDesc : Desc
  erdmaAeqNotifyCntDesc : Desc
  verbsAllocMrCntDesc : Desc
  verbsAllocMrFailedCntDesc : Desc
  verbsAllocPdCntDesc : Desc
  verbsAllocPdFailedCntDesc : Desc
  verbsAllocUctxCntDesc : Desc
  verbsAllocUctxFailedCntDesc : Desc
  verbsCreateCqCntDesc : Desc
  verbsCreateCqFailedCntDesc : Desc
  verbsCreateQpCntDesc : Desc
  verbsCreateQpFailedCntDesc : Desc
  verbsDeallocPdCntDesc : Desc
  verbsDeallocUctxCntDesc : Desc
  verbsDeregMrCntDesc : Desc
  verbsDeregMrFailedCntDesc : Desc
  verbsDestroyCqCntDesc : Desc
  verbsDestroyCqFailedCntDesc : Desc
  verbsDestroyQpCntDesc : Desc
  verbsDestroyQpFailedCntDesc : Desc
  verbsGetDmaMrCntDesc : Desc
  verbsGetDmaMrFailedCntDesc : Desc
  verbsRegUsrMrCntDesc : Desc
  verbsRegUsrMrFailedCntDesc : Desc
  hwTxReqsCntDesc : Desc
  hwTxPacketsCntDesc : Desc
  hwTxBytesCntDesc : Desc
  hwDisableDropCntDesc : Desc
  hwBpsLimitDropCntDesc : Desc
  hwPpsLimitDropCntDesc : Desc
  hwRxPacketsCntDesc : Desc
  hwRxBytesCntDesc : Desc
  hwRxDisableDropCntDesc : Desc
  hwRxBpsLimitDropCntDesc : Desc
  hwRxPpsLimitDropCntDesc : Desc

/-- The constructor `NewErdmaCollector`. -/
def NewErdmaCollector : ErdmaCollector where
  versionDesc := NewDesc (BuildFQName namespaceName "driver" "version")
    "ERDMA kernel driver version" ["version", "node"]
  deviceGUIDDesc := NewDesc (BuildFQName namespaceName "device" "info")
    "ERDMA device information" ["device", "node_guid", "node"]
  listenCreateCntDesc := NewDesc (BuildFQName namespaceName "listen" "create_total")
    "Total number of listen create operations" ["device", "node"]
  listenIpv6CntDesc := NewDesc (BuildFQName namespaceName "listen" "ipv6_total")
    "Total number of IPv6 listen operations" ["device", "node"]
  listenSuccessCntDesc := NewDesc (BuildFQName namespaceName "listen" "success_total")
    "Total number of successful listen operations" ["device", "node"]
  listenFailedCntDesc := NewDesc (BuildFQName namespaceName "listen" "failed_total")
    "Total number of failed listen operations" ["device", "node"]
  listenDestroyCntDesc := NewDesc (BuildFQName namespaceName "listen" "destroy_total")
    "Total number of listen destroy operations" ["device", "node"]
  acceptTotalCntDesc := NewDesc (BuildFQName namespaceName "accept" "total")
    "Total number of accept operations" ["device", "node"]
  acceptSuccessCntDesc := NewDesc (BuildFQName namespaceName "accept" "success_total")
    "Total number of successful accept operations" ["device", "node"]
  acceptFailedCntDesc := NewDesc (BuildFQName namespaceName "accept" "failed_total")
    "Total number of failed accept operations" ["device", "node"]
  rejectCntDesc := NewDesc (BuildFQName namespaceName "reject" "total")
    "Total number of reject operations" ["device", "node"]
  rejectFailedCntDesc := NewDesc (BuildFQName namespaceName "reject" "failed_total")
    "Total number of failed reject operations" ["device", "node"]
  connectTotalCntDesc := NewDesc (BuildFQName namespaceName "connect" "total")
    "Total number of connect operations" ["device", "node"]
  connectSuccessCntDesc := NewDesc (BuildFQName namespaceName "connect" "success_total")
    "Total number of successful connect operations" ["device", "node"]
  connectFailedCntDesc := NewDesc (BuildFQName namespaceName "connect" "failed_total")
    "Total number of failed connect operations" ["device", "node"]
  connectTimeoutCntDesc := NewDesc (BuildFQName namespaceName "connect" "timeout_total")
    "Total number of connect timeout operations" ["device", "node"]
  connectResetCntDesc := NewDesc (BuildFQName namespaceName "connect" "reset_total")
    "Total number of connect reset operations" ["device", "node"]
  cmdqSubmittedCntDesc := NewDesc (BuildFQName namespaceName "cmdq" "submitted_total")
    "Total number of submitted command queue operations" ["device", "node"]
  cmdqCompCntDesc := NewDesc (BuildFQName namespaceName "cmdq" "completed_total")
    "Total number of completed command queue operations" ["device", "node"]
  cmdqEqNotifyCntDesc := NewDesc (BuildFQName namespaceName "cmdq" "eq_notify_total")
    "Total number of command queue event queue notifications" ["device", "node"]
  cmdqEqEventCntDesc := NewDesc (BuildFQName namespaceName "cmdq" "eq_event_total")
    "Total number of command queue event queue events" ["device", "node"]
  cmdqCqArmedCntDesc := NewDesc (BuildFQName namespaceName "cmdq" "cq_armed_total")
    "Total number of command queue completion queue armed operations" ["device", "node"]
  erdmaAeqEventCntDesc := NewDesc (BuildFQName namespaceName "aeq" "event_total")
    "Total number of async event queue events" ["device", "node"]
  erdmaAeqNotifyCntDesc := NewDesc (BuildFQName namespaceName "aeq" "notify_total")
    "Total number of async event queue notifications" ["device", "node"]
  verbsAllocMrCntDesc := NewDesc (BuildFQName namespaceName "verbs" "alloc_mr_total")
    "Total number of verbs memory region allocations" ["device", "node"]
  verbsAllocMrFailedCntDesc := NewDesc (BuildFQName namespaceName "verbs" "alloc_mr_failed_total")
    "Total number of failed verbs memory region allocations" ["device", "node"]
  verbsAllocPdCntDesc := NewDesc (BuildFQName namespaceName "verbs" "alloc_pd_total")
    "Total number of verbs protection domain allocations" ["device", "node"]
  verbsAllocPdFailedCntDesc := NewDesc (BuildFQName namespaceName "verbs" "alloc_pd_failed_total")
    "Total number of failed verbs protection domain allocations" ["device", "node"]
  verbsAllocUctxCntDesc := NewDesc (BuildFQName namespaceName "verbs" "alloc_uctx_total")
    "Total number of verbs user context allocations" ["device", "node"]
  verbsAllocUctxFailedCntDesc := NewDesc (BuildFQName namespaceName "verbs" "alloc_uctx_failed_total")
    "Total number of failed verbs user context allocations" ["device", "node"]
  verbsCreateCqCntDesc := NewDesc (BuildFQName namespaceName "verbs" "create_cq_total")
    "Total number of verbs completion queue creations" ["device", "node"]
  verbsCreateCqFailedCntDesc := NewDesc (BuildFQName namespaceName "verbs" "create_cq_failed_total")
    "Total number of failed verbs completion queue creations" ["device", "node"]
  verbsCreateQpCntDesc := NewDesc (BuildFQName namespaceName "verbs" "create_qp_total")
    "Total number of verbs queue pair creations" ["device", "node"]
  verbsCreateQpFailedCntDesc := NewDesc (BuildFQName namespaceName "verbs" "create_qp_failed_total")
    "Total number of failed verbs queue pair creations" ["device", "node"]
  verbsDeallocPdCntDesc := NewDesc (BuildFQName namespaceName "verbs" "dealloc_pd_total")
    "Total number of verbs protection domain deallocations" ["device", "node"]
  verbsDeallocUctxCntDesc := NewDesc (BuildFQName namespaceName "verbs" "dealloc_uctx_total")
    "Total number of verbs user context deallocations" ["device", "node"]
  verbsDeregMrCntDesc := NewDesc (BuildFQName namespaceName "verbs" "dereg_mr_total")
    "Total number of verbs memory region deregistrations" ["device", "node"]
  verbsDeregMrFailedCntDesc := NewDesc (BuildFQName namespaceName "verbs" "dereg_mr_failed_total")
    "Total number of failed verbs memory region deregistrations" ["device", "node"]
  verbsDestroyCqCntDesc := NewDesc (BuildFQName namespaceName "verbs" "destroy_cq_total")
    "Total number of verbs completion queue destructions" ["device", "node"]
  verbsDestroyCqFailedCntDesc := NewDesc (BuildFQName namespaceName "verbs" "destroy_cq_failed_total")
    "Total number of failed verbs completion queue destructions" ["device", "node"]
  verbsDestroyQpCntDesc := NewDesc (BuildFQName namespaceName "verbs" "destroy_qp_total")
    "Total number of verbs queue pair destructions" ["device", "node"]
  verbsDestroyQpFailedCntDesc := NewDesc (BuildFQName namespaceName "verbs" "destroy_qp_failed_total")
    "Total number of failed verbs queue pair destructions" ["device", "node"]
  verbsGetDmaMrCntDesc := NewDesc (BuildFQName namespaceName "verbs" "get_dma_mr_total")
    "Total number of verbs DMA memory region get operations" ["device", "node"]
  verbsGetDmaMrFailedCntDesc := NewDesc (BuildFQName namespaceName "verbs" "get_dma_mr_failed_total")
    "Total number of failed verbs DMA memory region get operations" ["device", "node"]
  verbsRegUsrMrCntDesc := NewDesc (BuildFQName namespaceName "verbs" "reg_usr_mr_total")
    "Total number of verbs user memory region registrations" ["device", "node"]
  verbsRegUsrMrFailedCntDesc := NewDesc (BuildFQName namespaceName "verbs" "reg_usr_mr_failed_total")
    "Total number of failed verbs user memory region registrations" ["device", "node"]
  hwTxReqsCntDesc := NewDesc (BuildFQName namespaceName "hw" "tx_requests_total")
    "Total number of hardware transmit requests" ["device", "node"]
  hwTxPacketsCntDesc := NewDesc (BuildFQName namespaceName "hw" "tx_packets_total")
    "Total number of hardware transmit packets" ["device", "node"]
  hwTxBytesCntDesc := NewDesc (BuildFQName namespaceName "hw" "tx_bytes_total")
    "Total number of hardware transmit bytes" ["device", "node"]
  hwDisableDropCntDesc := NewDesc (BuildFQName namespaceName "hw" "disable_drop_total")
    "Total number of hardware disable drop operations" ["device", "node"]
  hwBpsLimitDropCntDesc := NewDesc (BuildFQName namespaceName "hw" "bps_limit_drop_total")
    "Total number of hardware BPS limit drops" ["device", "node"]
  hwPpsLimitDropCntDesc := NewDesc (BuildFQName namespaceName "hw" "pps_limit_drop_total")
    "Total number of hardware PPS limit drops" ["device", "node"]
  hwRxPacketsCntDesc := NewDesc (BuildFQName namespaceName "hw" "rx_packets_total")
    "Total number of hardware receive packets" ["device", "node"]
  hwRxBytesCntDesc := NewDesc (BuildFQName namespaceName "hw" "rx_bytes_total")
    "Total number of hardware receive bytes" ["device", "node"]
  hwRxDisableDropCntDesc := NewDesc (BuildFQName namespaceName "hw" "rx_disable_drop_total")
    "Total number of hardware receive disable drops" ["device", "node"]
  hwRxBpsLimitDropCntDesc := NewDesc (BuildFQName namespaceName "hw" "rx_bps_limit_drop_total")
    "Total number of hardware receive BPS limit drops" ["device", "node"]
  hwRxPpsLimitDropCntDesc := NewDesc (BuildFQName namespaceName "hw" "rx_pps_limit_drop_total")
    "Total number of hardware receive PPS limit drops" ["device", "node"]

/-- The method `Describe`: the descriptors it sends, in order. -/
def Describe (c : ErdmaCollector) : List Desc :=
  [c.versionDesc,
   c.deviceGUIDDesc,
   c.listenCreateCntDesc,
   c.listenIpv6CntDesc,
   c.listenSuccessCntDesc,
   c.listenFailedCntDesc,
   c.listenDestroyCntDesc,
   c.acceptTotalCntDesc,
   c.acceptSuccessCntDesc,
   c.acceptFailedCntDesc,
   c.rejectCntDesc,
   c.rejectFailedCntDesc,
   c.connectTotalCntDesc,
   c.connectSuccessCntDesc,
   c.connectFailedCntDesc,
   c.connectTimeoutCntDesc,
   c.connectResetCntDesc,
   c.cmdqSubmittedCntDesc,
   c.cmdqCompCntDesc,
   c.cmdqEqNotifyCntDesc,
   c.cmdqEqEventCntDesc,
   c.cmdqCqArmedCntDesc,
   c.erdmaAeqEventCntDesc,
   c.erdmaAeqNotifyCntDesc,
   c.verbsAllocMrCntDesc,
   c.verbsAllocMrFailedCntDesc,
   c.verbsAllocPdCntDesc,
   c.verbsAllocPdFailedCntDesc,
   c.verbsAllocUctxCntDesc,
   c.verbsAllocUctxFailedCntDesc,
   c.verbsCreateCqCntDesc,
   c.verbsCreateCqFailedCntDesc,
   c.verbsCreateQpCntDesc,
   c.verbsCreateQpFailedCntDesc,
   c.verbsDeallocPdCntDesc,
   c.verbsDeallocUctxCntDesc,
   c.verbsDeregMrCntDesc,
   c.verbsDeregMrFailedCntDesc,
   c.verbsDestroyCqCntDesc,
   c.verbsDestroyCqFailedCntDesc,
   c.verbsDestroyQpCntDesc,
   c.verbsDestroyQpFailedCntDesc,
   c.verbsGetDmaMrCntDesc,
   c.verbsGetDmaMrFailedCntDesc,
   c.verbsRegUsrMrCntDesc,
   c.verbsRegUsrMrFailedCntDesc,
   c.hwTxReqsCntDesc,
   c.hwTxPacketsCntDesc,
   c.hwTxBytesCntDesc,
   c.hwDisableDropCntDesc,
   c.hwBpsLimitDropCntDesc,
   c.hwPpsLimitDropCntDesc,
   c.hwRxPacketsCntDesc,
   c.hwRxBytesCntDesc,
   c.hwRxDisableDropCntDesc,
   c.hwRxBpsLimitDropCntDesc,
   c.hwRxPpsLimitDropCntDesc]

/-! ## Emission: `emitStats` and `Collect` -/

/-- The calls `emitMetric(desc, key)` that `emitStats` makes, in order. -/
def emitCalls (c : ErdmaCollector) : List (Desc × GoString) :=
  [(c.listenCreateCntDesc, "listen_create_cnt".toList),
   (c.listenIpv6CntDesc, "listen_ipv6_cnt".toList),
   (c.listenSuccessCntDesc, "listen_success_cnt".toList),
   (c.listenFailedCntDesc, "listen_failed_cnt".toList),
   (c.listenDestroyCntDesc, "listen_destroy_cnt".toList),
   (c.acceptTotalCntDesc, "accept_total_cnt".toList),
   (c.acceptSuccessCntDesc, "accept_success_cnt".toList),
   (c.acceptFailedCntDesc, "accept_failed_cnt".toList),
   (c.rejectCntDesc, "reject_cnt".toList),
   (c.rejectFailedCntDesc, "reject_failed_cnt".toList),
   (c.connectTotalCntDesc, "connect_total_cnt".toList),
   (c.connectSuccessCntDesc, "connect_success_cnt".toList),
   (c.connectFailedCntDesc, "connect_failed_cnt".toList),
   (c.connectTimeoutCntDesc, "connect_timeout_cnt".toList),
   (c.connectResetCntDesc, "connect_reset_cnt".toList),
   (c.cmdqSubmittedCntDesc, "cmdq_submitted_cnt".toList),
   (c.cmdqCompCntDesc, "cmdq_comp_cnt".toList),
   (c.cmdqEqNotifyCntDesc, "cmdq_eq_notify_cnt".toList),
   (c.cmdqEqEventCntDesc, "cmdq_eq_event_cnt".toList),
   (c.cmdqCqArmedCntDesc, "cmdq_cq_armed_cnt".toList),
   (c.erdmaAeqEventCntDesc, "erdma_aeq_event_cnt".toList),
   (c.erdmaAeqNotifyCntDesc, "erdma_aeq_notify_cnt".toList),
   (c.verbsAllocMrCntDesc, "verbs_alloc_mr_cnt".toList),
   (c.verbsAllocMrFailedCntDesc, "verbs_alloc_mr_failed_cnt".toList),
   (c.verbsAllocPdCntDesc, "verbs_alloc_pd_cnt".toList),
   (c.verbsAllocPdFailedCntDesc, "verbs_alloc_pd_failed_cnt".toList),
   (c.verbsAllocUctxCntDesc, "verbs_alloc_uctx_cnt".toList),
   (c.verbsAllocUctxFailedCntDesc, "verbs_alloc_uctx_failed_cnt".toList),
   (c.verbsCreateCqCntDesc, "verbs_create_cq_cnt".toList),
   (c.verbsCreateCqFailedCntDesc, "verbs_create_cq_failed_cnt".toList),
   (c.verbsCreateQpCntDesc, "verbs_create_qp_cnt".toList),
   (c.verbsCreateQpFailedCntDesc, "verbs_create_qp_failed_cnt".toList),
   (c.verbsDeallocPdCntDesc, "verbs_dealloc_pd_cnt".toList),
   (c.verbsDeallocUctxCntDesc, "verbs_dealloc_uctx_cnt".toList),
   (c.verbsDeregMrCntDesc, "verbs_dereg_mr_cnt".toList),
   (c.verbsDeregMrFailedCntDesc, "verbs_dereg_mr_failed_cnt".toList),
   (c.verbsDestroyCqCntDesc, "verbs_destroy_cq_cnt".toList),
   (c.verbsDestroyCqFailedCntDesc, "verbs_destroy_cq_failed_cnt".toList),
   (c.verbsDestroyQpCntDesc, "verbs_destroy_qp_cnt".toList),
   (c.verbsDestroyQpFailedCntDesc, "verbs_destroy_qp_failed_cnt".toList),
   (c.verbsGetDmaMrCntDesc, "verbs_get_dma_mr_cnt".toList),
   (c.verbsGetDmaMrFailedCntDesc, "verbs_get_dma_mr_failed_cnt".toList),
   (c.verbsRegUsrMrCntDesc, "verbs_reg_usr_mr_cnt".toList),
   (c.verbsRegUsrMrFailedCntDesc, "verbs_reg_usr_mr_failed_cnt".toList),
   (c.hwTxReqsCntDesc, "hw_tx_reqs_cnt".toList),
   (c.hwTxPacketsCntDesc, "hw_tx_packets_cnt".toList),
   (c.hwTxBytesCntDesc, "hw_tx_bytes_cnt".toList),
   (c.hwDisableDropCntDesc, "hw_disable_drop_cnt".toList),
   (c.hwBpsLimitDropCntDesc, "hw_bps_limit_drop_cnt".toList),
   (c.hwPpsLimitDropCntDesc, "hw_pps_limit_drop_cnt".toList),
   (c.hwRxPacketsCntDesc, "hw_rx_packets_cnt".toList),
   (c.hwRxBytesCntDesc, "hw_rx_bytes_cnt".toList),
   (c.hwRxDisableDropCntDesc, "hw_rx_disable_drop_cnt".toList),
   (c.hwRxBpsLimitDropCntDesc, "hw_rx_bps_limit_drop_cnt".toList),
   (c.hwRxPpsLimitDropCntDesc, "hw_rx_pps_limit_drop_cnt".toList)]

/-- The closure `emitMetric` of `emitStats`. -/
def emitMetric (device nodeName : GoString) (stats : Stats) (desc : Desc)
    (key : GoString) : List Sample :=
  match stats.lookup key with
  | some val =>
    [MustNewConstMetric desc .CounterValue (float64OfUint64 val) [device, nodeName]]
  | none => []

/-- The method `emitStats`: the samples it sends, in order. -/
def emitStats (c : ErdmaCollector) (device nodeName : GoString) (stats : Stats) :
    List Sample :=
  (emitCalls c).flatMap (fun p => emitMetric device nodeName stats p.1 p.2)

/-- The results of the calls `Collect` makes during one scrape.  The statistics
of a device are fetched by name, once for each position of the enumeration. -/
structure Env where
  getNodeName : GoString
  getVersion : GoString × Option Err
  getDevices : List Device × Option Err
  getDeviceStats : Nat → GoString → Stats × Option Err

/-- The state of the machine a scrape runs on. -/
structure World where
  nodeNameVar : Option GoString
  hostname : GoString × Option Err
  eadmVer : CmdResult
  ibvDevices : CmdResult
  eadmStat : Nat → GoString → CmdResult

/-- The results of the calls of a scrape on a given machine. -/
def World.env (w : World) : Env where
  getNodeName := Erdma.getNodeName w.nodeNameVar w.hostname
  getVersion := Erdma.getVersion w.eadmVer
  getDevices := Erdma.getDevices w.ibvDevices
  getDeviceStats := fun i device => Erdma.getDeviceStats (w.eadmStat i device)

/-- The identity sample of a device. -/
def deviceInfo (c : ErdmaCollector) (nodeName : GoString) (device : Device) : Sample :=
  MustNewConstMetric c.deviceGUIDDesc .GaugeValue 1 [device.Name, device.GUID, nodeName]

/-- The counter samples of the device at position `i`: none when the fetch of
its statistics failed. -/
def deviceCounters (c : ErdmaCollector) (env : Env) (nodeName : GoString) (i : Nat)
    (device : Device) : List Sample :=
  let r := env.getDeviceStats i device.Name
  if r.2 ≠ none then [] else emitStats c device.Name nodeName r.1

/-- The loop of `Collect` over the devices, from position `i` on. -/
def collectDevices (c : ErdmaCollector) (env : Env) (nodeName : GoString) :
    Nat → List Device → List Sample
  | _, [] => []
  | i, device :: rest =>
    deviceInfo c nodeName device ::
      (deviceCounters c env nodeName i device ++ collectDevices c env nodeName (i + 1) rest)

/-- The version sample of `Collect`: sent when `getVersion` returned no error. -/
def versionSamples (c : ErdmaCollector) (env : Env) : List Sample :=
  if env.getVersion.2 = none then
    [MustNewConstMetric c.versionDesc .GaugeValue 1 [env.getVersion.1, env.getNodeName]]
  else []

/-- The method `Collect`: the samples it sends, in order. -/
def Collect (c : ErdmaCollector) (env : Env) : List Sample :=
  let nodeName := env.getNodeName
  let sent := versionSamples c env
  let devices := env.getDevices
  if devices.2 ≠ none then sent
  else sent ++ collectDevices c env nodeName 0 devices.1

/-! ## Notions of the specification -/

/-- A string of white space only (possibly empty). -/
def AllSpace (w : GoString) : Prop := ∀ c ∈ w, isSpace c = true

instance (w : GoString) : Decidable (AllSpace w) := by unfold AllSpace; infer_instance

/-- A string with no white space at either end. -/
def Trimmed (k : GoString) : Prop :=
  (∀ c ∈ k.head?, isSpace c = false) ∧ (∀ c ∈ k.getLast?, isSpace c = false)

instance (k : GoString) : Decidable (Trimmed k) := by unfold Trimmed; infer_instance

/-- A decimal digit. -/
def IsDigit (c : Char) : Prop := '0' ≤ c ∧ c ≤ '9'

instance (c : Char) : Decidable (IsDigit c) := by unfold IsDigit; infer_instance

/-- The number a string of decimal digits denotes. -/
def decimalValue (ds : GoString) : Nat :=
  ds.foldl (fun a c => a * 10 + (c.toNat - '0'.toNat)) 0

/-- The entry that the loop body of `getDeviceStats` stores for a line, if any:
`statsLine` with the map left out. -/
def lineEntry (text : GoString) : Option (GoString × Nat) :=
  let line := TrimSpace text
  if line = [] then none
  else
    let parts := Split line ':'
    if parts.length ≠ 2 then none
    else
      match ParseUint (TrimSpace (parts.getD 1 [])) with
      | .error _ => none
      | .ok val => some (TrimSpace (parts.getD 0 []), val)

/-- A line of the form `key : digits`: a key with no `':'` and no white space at
its ends, a colon and a non-empty string of decimal digits that denotes `n`,
with `n` below `2 ^ 64`; white space is allowed before the key, around the colon
and after the digits. -/
def KeyDigits (line key : GoString) (n : Nat) : Prop :=
  ∃ w1 w2 w3 w4 ds : GoString,
    line = w1 ++ key ++ w2 ++ ':' :: (w3 ++ ds ++ w4) ∧
    AllSpace w1 ∧ AllSpace w2 ∧ AllSpace w3 ∧ AllSpace w4 ∧
    ':' ∉ key ∧ Trimmed key ∧
    ds ≠ [] ∧ (∀ c ∈ ds, IsDigit c) ∧ decimalValue ds = n ∧ n < 2 ^ 64

/-- An unsigned decimal integer, possibly with white space around it. -/
def DecimalText (post : GoString) : Prop :=
  ∃ w1 ds w2 : GoString, post = w1 ++ ds ++ w2 ∧ AllSpace w1 ∧ AllSpace w2 ∧
    ds ≠ [] ∧ ∀ c ∈ ds, IsDigit c

/-- A malformed statistics line: it has no `':'`, or the part after a `':'` of
it is not an unsigned decimal integer. -/
def Malformed (line : GoString) : Prop :=
  ':' ∉ line ∨ ∃ pre post : GoString, line = pre ++ ':' :: post ∧ ¬ DecimalText post

/-- A line of `MaxScanTokenSize` bytes, the shortest that does not fit the
scanner's buffer. -/
@[irreducible]
def longLine : GoString := List.replicate MaxScanTokenSize 'x'

/-- The device a line of the listing stands for: its first two white-space
separated tokens, when it has at least two. -/
def deviceOfLine (line : GoString) : Option Device :=
  if 2 ≤ (Fields line).length then
    some { Name := (Fields line).getD 0 [], GUID := (Fields line).getD 1 [] }
  else none

/-- The sample of one pair of the table of `emitStats`: present when the key of
the pair is in the snapshot. -/
def counterSample (device nodeName : GoString) (stats : Stats) (p : Desc × GoString) :
    Option Sample :=
  (List.lookup p.2 stats).map
    (fun v => MustNewConstMetric p.1 .CounterValue (float64OfUint64 v) [device, nodeName])

/-- The samples of the device at a position of the enumeration: its identity
sample, then its counter samples when the fetch of its statistics succeeded. -/
def deviceBlock (c : ErdmaCollector) (env : Env) (p : Nat × Device) : List Sample :=
  deviceInfo c env.getNodeName p.2 ::
    (if (env.getDeviceStats p.1 p.2.Name).2 = none then
      emitStats c p.2.Name env.getNodeName (env.getDeviceStats p.1 p.2.Name).1
    else [])

/-- The samples of a device whose statistics were fetched: its identity sample,
then the counter samples of its snapshot. -/
def fullBlock (c : ErdmaCollector) (env : Env) (p : Nat × Device) : List Sample :=
  deviceInfo c env.getNodeName p.2 ::
    emitStats c p.2.Name env.getNodeName (env.getDeviceStats p.1 p.2.Name).1

/-- An occurrence in `out` of the label of the version line, followed by the
white space `ws` (one character or more of the class `\s`) and by the characters
`tok` (one or more, none of the class `\s`); `pre` is the text before it and
`rest` the text after it. -/
def VersionOccurrence (out pre ws tok rest : GoString) : Prop :=
  out = pre ++ versionLabel ++ ws ++ tok ++ rest ∧
  ws ≠ [] ∧ (∀ c ∈ ws, reSpace c = true) ∧
  tok ≠ [] ∧ (∀ c ∈ tok, reSpace c = false)

/-- The match of the version pattern at the start of a text, computed directly:
the label, the longest run of `\s`, the longest run of other characters. -/
def versionHere (s : GoString) : Option (GoString × Option GoString) :=
  if versionLabel <+: s then
    let t := s.drop versionLabel.length
    let ws := t.takeWhile reSpace
    let tok := (t.dropWhile reSpace).takeWhile (fun c => !reSpace c)
    if ws ≠ [] ∧ tok ≠ [] then some (versionLabel ++ ws ++ tok, some tok) else none
  else none

/-- A scrape of two devices in which the statistics of the second one cannot be
fetched. -/
def exampleEnv : Env where
  getNodeName := "node-1".toList
  getVersion := ("0.2.38".toList, none)
  getDevices :=
    ([{ Name := "erdma_0".toList, GUID := "02163efffe5030b3".toList },
      { Name := "erdma_1".toList, GUID := "02163efffe5030b4".toList }], none)
  getDeviceStats := fun i _ =>
    if i = 1 then ([], some .exec) else ([("listen_create_cnt".toList, 3)], none)

/-- A listing of the devices with a line of `MaxScanTokenSize` bytes after the
line of the device `erdma_0`. -/
def longListing : GoString :=
  "    device\tnode GUID\n    ------\t---------\nerdma_0 02163efffe5030b3\n".toList ++ longLine

/-- A machine on which the listing of the devices is `longListing`. -/
def exampleWorldLongLine : World where
  nodeNameVar := some "node-1".toList
  hostname := ("host".toList, none)
  eadmVer := some "Query kernel driver version: 0.2.38\n".toList
  ibvDevices := some longListing
  eadmStat := fun _ _ => some "listen_create_cnt : 3\n".toList

/-! ## The reference parser of the statistics -/

/-- The cut of a line at its first separator: the text before it and the whole
text after it; `none` when the line has no separator. -/
def cutFirst (line : GoString) (sep : Char) : Option (GoString × GoString) :=
  if sep ∈ line then
    some (line.takeWhile (fun c => c ≠ sep), (line.dropWhile (fun c => c ≠ sep)).drop 1)
  else none

/-- The reading of a text as an unsigned decimal integer of 64 bits: a non-empty
string of decimal digits that denotes a number below `2 ^ 64`. -/
def refParseUint64 (s : GoString) : Option Nat :=
  if s ≠ [] ∧ (∀ c ∈ s, IsDigit c) ∧ decimalValue s < 2 ^ 64 then some (decimalValue s)
  else none

/-- The entry the reference parser keeps for a line: a blank line and a line
with no `':'` give none; another line is cut at its first `':'`, both parts are
trimmed, and the entry is kept when the right part reads as an unsigned decimal
integer of 64 bits. -/
def refLineEntry (line : GoString) : Option (GoString × Nat) :=
  if AllSpace line then none
  else
    match cutFirst line ':' with
    | none => none
    | some (left, rest) =>
      match refParseUint64 (TrimSpace rest) with
      | none => none
      | some val => some (TrimSpace left, val)

/-- The step of the reference parser on one line. -/
def refStatsLine (stats : Stats) (line : GoString) : Stats :=
  match refLineEntry line with
  | none => stats
  | some e => stats.store e.1 e.2

/-- The reference parser of the specification, on the lines the scanner
delivers. -/
def refGetDeviceStats (output : GoString) : Stats :=
  (scanLines output).1.foldl refStatsLine []

/-- The reference parser on all the lines of the output, read without a limit
of length. -/
def refStatsOfLines (output : GoString) : Stats :=
  (rawLines output).foldl refStatsLine []

/-! # Properties

## Lemmas on the library models -/
theorem getLast?_cons_ne {α : Type} (c : α) (cs : List α) (h : cs ≠ []) :
    (c :: cs).getLast? = cs.getLast? := by
  cases cs with
  | nil => exact absurd rfl h
  | cons d ds => simp [List.getLast?]

theorem trimRight_eq_nil_iff (s : GoString) : trimRight s = [] ↔ AllSpace s := by
  induction s with
  | nil => simp [trimRight, AllSpace]
  | cons c cs ih =>
    simp only [trimRight, AllSpace, List.mem_cons, forall_eq_or_imp]
    by_cases h : trimRight cs = []
    · have := ih.mp h
      by_cases hc : isSpace c = true <;> simp_all [AllSpace]
    · have : ¬ AllSpace cs := fun h2 => h (ih.mpr h2)
      simp_all [AllSpace]

theorem trimRight_append_allSpace (s w : GoString) (hw : AllSpace w) :
    trimRight (s ++ w) = trimRight s := by
  induction s with
  | nil => simpa using (trimRight_eq_nil_iff w).mpr hw
  | cons c cs ih => simp [trimRight, ih]

theorem trimRight_decomp (s : GoString) :
    ∃ b, s = trimRight s ++ b ∧ AllSpace b := by
  induction s with
  | nil => exact ⟨[], by simp [trimRight, AllSpace]⟩
  | cons c cs ih =>
    obtain ⟨b, hb, hsp⟩ := ih
    by_cases h : (trimRight cs).isEmpty && isSpace c
    · refine ⟨c :: cs, by simp [trimRight, h], ?_⟩
      simp only [Bool.and_eq_true, List.isEmpty_iff] at h
      have := (trimRight_eq_nil_iff cs).mp h.1
      intro x hx
      rcases List.mem_cons.mp hx with rfl | hx
      · exact h.2
      · exact this x hx
    · refine ⟨b, ?_, hsp⟩
      simp only [trimRight, h]
      simp [← hb]

theorem trimRight_getLast (s : GoString) :
    ∀ c, (trimRight s).getLast? = some c → isSpace c = false := by
  induction s with
  | nil => simp [trimRight]
  | cons c cs ih =>
    intro x hx
    simp only [trimRight] at hx
    by_cases h : trimRight cs = []
    · by_cases hc : isSpace c = true
      · simp [h, hc] at hx
      · simp [h, hc] at hx
        subst hx; simpa using hc
    · have h2 : (trimRight cs).isEmpty = false := by simpa using h
      simp only [h2, Bool.false_and, Bool.false_eq_true, if_false] at hx
      rw [getLast?_cons_ne _ _ h] at hx
      exact ih x hx

theorem trimRight_of_getLast (s : GoString)
    (h : ∀ c, s.getLast? = some c → isSpace c = false) : trimRight s = s := by
  induction s with
  | nil => rfl
  | cons c cs ih =>
    by_cases hcs : cs = []
    · subst hcs
      have := h c (by simp)
      simp [trimRight, this]
    · have h2 := ih (fun x hx => h x (by rw [getLast?_cons_ne _ _ hcs]; exact hx))
      simp [trimRight, h2, hcs]

theorem dropWhile_allSpace_append (w s : GoString) (hw : AllSpace w) :
    (w ++ s).dropWhile isSpace = s.dropWhile isSpace := by
  induction w with
  | nil => rfl
  | cons c cs ih =>
    have hc : isSpace c = true := hw c (List.mem_cons_self _ _)
    have := ih (fun x hx => hw x (List.mem_cons_of_mem _ hx))
    simp [List.dropWhile, hc, this]

theorem dropWhile_of_head (s : GoString)
    (h : ∀ c, s.head? = some c → isSpace c = false) : s.dropWhile isSpace = s := by
  cases s with
  | nil => rfl
  | cons c cs =>
    have := h c rfl
    simp [List.dropWhile, this]

theorem takeWhile_allSpace (s : GoString) : AllSpace (s.takeWhile isSpace) := by
  intro c hc
  exact List.mem_takeWhile_imp hc

theorem dropWhile_head (s : GoString) :
    ∀ c, (s.dropWhile isSpace).head? = some c → isSpace c = false := by
  induction s with
  | nil => simp
  | cons c cs ih =>
    intro x hx
    by_cases hc : isSpace c = true
    · simp only [List.dropWhile, hc] at hx
      exact ih x hx
    · simp only [List.dropWhile, hc] at hx
      simp at hx
      subst hx
      simpa using hc

theorem trimRight_head (s : GoString) (h : ∀ c, s.head? = some c → isSpace c = false) :
    ∀ c, (trimRight s).head? = some c → isSpace c = false := by
  cases s with
  | nil => simp [trimRight]
  | cons c cs =>
    intro x hx
    have hc := h c rfl
    simp only [trimRight, hc] at hx
    simp at hx
    subst hx
    exact hc

theorem TrimSpace_trimmed (s : GoString) : Trimmed (TrimSpace s) :=
  ⟨trimRight_head _ (dropWhile_head s), trimRight_getLast _⟩

theorem TrimSpace_decomp (s : GoString) :
    ∃ a b, s = a ++ TrimSpace s ++ b ∧ AllSpace a ∧ AllSpace b := by
  obtain ⟨b, hb, hsp⟩ := trimRight_decomp (s.dropWhile isSpace)
  refine ⟨s.takeWhile isSpace, b, ?_, takeWhile_allSpace s, hsp⟩
  unfold TrimSpace
  rw [List.append_assoc, ← hb, List.takeWhile_append_dropWhile]

theorem TrimSpace_of_trimmed (k : GoString) (hk : Trimmed k) : TrimSpace k = k := by
  unfold TrimSpace
  rw [dropWhile_of_head k hk.1, trimRight_of_getLast k hk.2]

theorem TrimSpace_allSpace (w : GoString) (hw : AllSpace w) : TrimSpace w = [] := by
  unfold TrimSpace
  have : w.dropWhile isSpace = [] := by
    simpa [List.dropWhile_eq_nil_iff] using hw
  simp [this, trimRight]

theorem TrimSpace_append_allSpace (s w : GoString) (hw : AllSpace w) :
    TrimSpace (s ++ w) = TrimSpace s := by
  by_cases hs : AllSpace s
  · rw [TrimSpace_allSpace s hs]
    apply TrimSpace_allSpace
    intro c hc
    rcases List.mem_append.mp hc with h | h
    · exact hs c h
    · exact hw c h
  · unfold TrimSpace
    have hne : s.dropWhile isSpace ≠ [] := by
      intro h
      apply hs
      simpa [List.dropWhile_eq_nil_iff] using h
    rw [List.dropWhile_append]
    have : (List.dropWhile isSpace s).isEmpty = false := by simpa using hne
    simp only [this, Bool.false_eq_true, if_false]
    exact trimRight_append_allSpace _ _ hw

theorem TrimSpace_allSpace_append (w s : GoString) (hw : AllSpace w) :
    TrimSpace (w ++ s) = TrimSpace s := by
  unfold TrimSpace
  rw [dropWhile_allSpace_append w s hw]

theorem TrimSpace_sandwich (a k b : GoString) (ha : AllSpace a) (hb : AllSpace b)
    (hk : Trimmed k) : TrimSpace (a ++ k ++ b) = k := by
  rw [TrimSpace_append_allSpace _ _ hb, TrimSpace_allSpace_append _ _ ha,
    TrimSpace_of_trimmed k hk]

theorem TrimSpace_idem (s : GoString) : TrimSpace (TrimSpace s) = TrimSpace s :=
  TrimSpace_of_trimmed _ (TrimSpace_trimmed s)

theorem TrimSpace_eq_nil_iff (s : GoString) : TrimSpace s = [] ↔ AllSpace s := by
  constructor
  · intro h
    obtain ⟨a, b, hs, ha, hb⟩ := TrimSpace_decomp s
    rw [h] at hs
    rw [hs]
    intro c hc
    simp only [List.append_nil, List.mem_append] at hc
    rcases hc with h | h
    · exact ha c h
    · exact hb c h
  · exact TrimSpace_allSpace s

/-! ### Split -/

theorem Split_ne_nil (s : GoString) (sep : Char) : Split s sep ≠ [] := by
  cases s with
  | nil => simp [Split]
  | cons c cs =>
    simp only [Split]
    split
    · simp
    · split <;> simp

theorem Split_of_not_mem (s : GoString) (sep : Char) (h : sep ∉ s) : Split s sep = [s] := by
  induction s with
  | nil => rfl
  | cons c cs ih =>
    have hc : c ≠ sep := fun e => h (e ▸ List.mem_cons_self _ _)
    have := ih (fun hm => h (List.mem_cons_of_mem _ hm))
    simp [Split, hc, this]

theorem Split_append_sep (x y : GoString) (sep : Char) (h : sep ∉ x) :
    Split (x ++ sep :: y) sep = x :: Split y sep := by
  induction x with
  | nil => simp [Split]
  | cons c cs ih =>
    have hc : c ≠ sep := fun e => h (e ▸ List.mem_cons_self _ _)
    have := ih (fun hm => h (List.mem_cons_of_mem _ hm))
    simp [Split, hc, this]

theorem Split_cases (s : GoString) (sep : Char) :
    (sep ∉ s ∧ Split s sep = [s]) ∨
    ∃ x y, s = x ++ sep :: y ∧ sep ∉ x ∧ Split s sep = x :: Split y sep := by
  by_cases h : sep ∈ s
  · right
    obtain ⟨x, y, hs, hx⟩ := List.eq_append_cons_of_mem h
    exact ⟨x, y, hs, hx, hs ▸ Split_append_sep x y sep hx⟩
  · exact Or.inl ⟨h, Split_of_not_mem s sep h⟩

theorem Split_length_two (s : GoString) (sep : Char) (h : (Split s sep).length = 2) :
    ∃ x y, s = x ++ sep :: y ∧ sep ∉ x ∧ sep ∉ y ∧ Split s sep = [x, y] := by
  rcases Split_cases s sep with ⟨_, h1⟩ | ⟨x, y, hs, hx, hsp⟩
  · rw [h1] at h; simp at h
  · rcases Split_cases y sep with ⟨hy, h1⟩ | ⟨x2, y2, _, _, hsp2⟩
    · exact ⟨x, y, hs, hx, hy, by rw [hsp, h1]⟩
    · rw [hsp, hsp2] at h
      have := Split_ne_nil y2 sep
      cases hq : Split y2 sep with
      | nil => exact absurd hq this
      | cons _ _ => rw [hq] at h; simp at h

theorem digit_toNat (c : Char) (h : '0' ≤ c ∧ c ≤ '9') : c.toNat - '0'.toNat ≤ 9 := by
  obtain ⟨h1, h2⟩ := h
  have h2' : c.toNat ≤ '9'.toNat := h2
  have : '9'.toNat = 57 := by decide
  have : '0'.toNat = 48 := by decide
  omega

theorem foldl_digits_ge (cs : GoString) (a : Nat) :
    a ≤ cs.foldl (fun a c => a * 10 + (c.toNat - '0'.toNat)) a := by
  induction cs generalizing a with
  | nil => simp
  | cons c cs ih =>
    simp only [List.foldl_cons]
    have := ih (a * 10 + (c.toNat - '0'.toNat))
    omega

theorem parseUintLoop_ok_iff (cs : GoString) (a n : Nat) (ha : a < 2 ^ 64) :
    parseUintLoop (maxUint64 / 10 + 1) maxUint64 a cs = .ok n ↔
      (∀ c ∈ cs, IsDigit c) ∧
      cs.foldl (fun a c => a * 10 + (c.toNat - '0'.toNat)) a = n ∧ n < 2 ^ 64 := by
  induction cs generalizing a with
  | nil =>
    simp only [parseUintLoop, List.foldl_nil, List.not_mem_nil, false_implies, implies_true,
      true_and]
    constructor
    · intro h
      injection h with h
      subst h
      exact ⟨rfl, ha⟩
    · rintro ⟨rfl, _⟩
      rfl
  | cons c cs ih =>
    simp only [parseUintLoop, List.foldl_cons, List.mem_cons, forall_eq_or_imp]
    by_cases hc : '0' ≤ c ∧ c ≤ '9'
    · have hd := digit_toNat c hc
      simp only [hc, and_self, if_true]
      have hcut : maxUint64 / 10 + 1 = 1844674407370955162 := by decide
      have hmax : maxUint64 = 18446744073709551615 := by decide
      rw [hcut, hmax]
      have hge := foldl_digits_ge cs (a * 10 + (c.toNat - '0'.toNat))
      by_cases h1 : a ≥ 1844674407370955162
      · simp only [h1, if_true]
        constructor
        · intro h; cases h
        · rintro ⟨_, h3, hlt⟩
          exfalso
          have : (2:Nat) ^ 64 = 18446744073709551616 := by norm_num
          omega
      · simp only [h1, if_false]
        have h10 : a * 10 % 2 ^ 64 = a * 10 := by
          apply Nat.mod_eq_of_lt
          have : (2:Nat) ^ 64 = 18446744073709551616 := by norm_num
          omega
        rw [h10]
        by_cases h2 : a * 10 + (c.toNat - '0'.toNat) < 2 ^ 64
        · have h11 : (a * 10 + (c.toNat - '0'.toNat)) % 2 ^ 64 = a * 10 + (c.toNat - '0'.toNat) :=
            Nat.mod_eq_of_lt h2
          rw [h11]
          have hno : ¬ (a * 10 + (c.toNat - '0'.toNat) < a * 10 ∨
              a * 10 + (c.toNat - '0'.toNat) > 18446744073709551615) := by
            have : (2:Nat) ^ 64 = 18446744073709551616 := by norm_num
            omega
          simp only [hno, if_false]
          rw [← hcut, ← hmax, ih _ h2]
          constructor
          · rintro ⟨h3, h4⟩
            exact ⟨⟨hc, h3⟩, h4⟩
          · rintro ⟨⟨_, h3⟩, h4⟩
            exact ⟨h3, h4⟩
        · have hwrap : (a * 10 + (c.toNat - '0'.toNat)) % 2 ^ 64 < a * 10 := by
            have h3 : (a * 10 + (c.toNat - '0'.toNat)) % 2 ^ 64
                = a * 10 + (c.toNat - '0'.toNat) - 2 ^ 64 := by
              rw [Nat.mod_eq_sub_mod (by omega)]
              apply Nat.mod_eq_of_lt
              have : (2:Nat) ^ 64 = 18446744073709551616 := by norm_num
              omega
            rw [h3]
            have : (2:Nat) ^ 64 = 18446744073709551616 := by norm_num
            omega
          simp only [hwrap, true_or, if_true]
          constructor
          · intro h; cases h
          · rintro ⟨_, h3, hlt⟩
            omega
    · simp only [hc, if_false]
      constructor
      · intro h; cases h
      · rintro ⟨⟨h1, _⟩, _⟩
        exact absurd h1 hc

theorem ParseUint_ok_iff (s : GoString) (n : Nat) :
    ParseUint s = .ok n ↔
      s ≠ [] ∧ (∀ c ∈ s, IsDigit c) ∧ decimalValue s = n ∧ n < 2 ^ 64 := by
  unfold ParseUint decimalValue
  by_cases hs : s = []
  · simp [hs]
  · simp only [hs, if_false, ne_eq, not_false_eq_true, true_and]
    exact parseUintLoop_ok_iff s 0 n (by norm_num)

theorem statsLine_eq (stats : Stats) (text : GoString) :
    statsLine stats text =
      match lineEntry text with
      | none => stats
      | some e => stats.store e.1 e.2 := by
  unfold statsLine lineEntry
  simp only
  split_ifs <;> first | rfl | (split <;> rfl)

theorem isSpace_colon : isSpace ':' = false := by decide

theorem digit_not_space (c : Char) (h : IsDigit c) : isSpace c = false := by
  have h1 : '0'.toNat ≤ c.toNat := h.1
  have h2 : c.toNat ≤ '9'.toNat := h.2
  have e0 : '0'.toNat = 48 := by decide
  have e9 : '9'.toNat = 57 := by decide
  rw [e0] at h1
  rw [e9] at h2
  unfold isSpace
  simp only [Bool.or_eq_false_iff, beq_eq_false_iff_ne, Bool.and_eq_false_imp,
    decide_eq_true_eq, decide_eq_false_iff_not]
  omega

theorem digit_ne_colon (c : Char) (h : IsDigit c) : c ≠ ':' := by
  rintro rfl
  exact absurd h (by decide)

theorem colon_not_mem_allSpace (w : GoString) (hw : AllSpace w) : ':' ∉ w := by
  intro h
  have := hw _ h
  rw [isSpace_colon] at this
  cases this

theorem digits_trimmed (ds : GoString) (h : ∀ c ∈ ds, IsDigit c) : Trimmed ds :=
  ⟨fun c hc => digit_not_space c (h c (List.mem_of_mem_head? hc)),
   fun c hc => digit_not_space c (h c (List.mem_of_mem_getLast? hc))⟩

theorem dropWhile_append_cons (x y : GoString) (c : Char) (hc : isSpace c = false) :
    (x ++ c :: y).dropWhile isSpace = x.dropWhile isSpace ++ c :: y := by
  induction x with
  | nil => simp [List.dropWhile, hc]
  | cons d ds ih =>
    by_cases hd : isSpace d = true
    · simp [List.dropWhile, hd, ih]
    · simp [List.dropWhile, hd]

theorem TrimSpace_dropWhile (s : GoString) :
    TrimSpace (s.dropWhile isSpace) = TrimSpace s := by
  unfold TrimSpace
  rw [dropWhile_of_head _ (dropWhile_head s)]

theorem lineEntry_of_KeyDigits (line key : GoString) (n : Nat) (h : KeyDigits line key n) :
    lineEntry line = some (key, n) := by
  obtain ⟨w1, w2, w3, w4, ds, hl, h1, h2, h3, h4, hk, hkt, hne, hdig, hval, hlt⟩ := h
  have hlast : ∃ d, ds.getLast? = some d ∧ IsDigit d := by
    cases hq : ds.getLast? with
    | none => exact absurd (List.getLast?_eq_none_iff.mp hq) hne
    | some d => exact ⟨d, rfl, hdig d (List.mem_of_mem_getLast? hq)⟩
  obtain ⟨d, hd, hdd⟩ := hlast
  have hT : TrimSpace line =
      (key ++ w2).dropWhile isSpace ++ ':' :: (w3 ++ ds) := by
    have e : line = w1 ++ ((key ++ w2) ++ ':' :: (w3 ++ ds)) ++ w4 := by
      rw [hl]; simp [List.append_assoc]
    rw [e, TrimSpace_append_allSpace _ _ h4, TrimSpace_allSpace_append _ _ h1]
    unfold TrimSpace
    rw [dropWhile_append_cons _ _ _ isSpace_colon]
    apply trimRight_of_getLast
    intro c hc
    have : (List.dropWhile isSpace (key ++ w2) ++ ':' :: (w3 ++ ds)).getLast? = some d := by
      rw [show List.dropWhile isSpace (key ++ w2) ++ ':' :: (w3 ++ ds)
          = (List.dropWhile isSpace (key ++ w2) ++ ':' :: w3) ++ ds by simp]
      rw [List.getLast?_append, hd]
      rfl
    rw [this] at hc
    injection hc with hc
    subst hc
    exact digit_not_space _ hdd
  have hk2 : ':' ∉ (key ++ w2).dropWhile isSpace := by
    intro hm
    have := (List.dropWhile_sublist isSpace).subset hm
    rcases List.mem_append.mp this with h | h
    · exact hk h
    · exact colon_not_mem_allSpace w2 h2 h
  have hy : ':' ∉ w3 ++ ds := by
    intro hm
    rcases List.mem_append.mp hm with h | h
    · exact colon_not_mem_allSpace w3 h3 h
    · exact digit_ne_colon _ (hdig _ h) rfl
  have hS : Split (TrimSpace line) ':' = [(key ++ w2).dropWhile isSpace, w3 ++ ds] := by
    rw [hT, Split_append_sep _ _ _ hk2, Split_of_not_mem _ _ hy]
  have hkey : TrimSpace ((key ++ w2).dropWhile isSpace) = key := by
    rw [TrimSpace_dropWhile]
    simpa using TrimSpace_sandwich [] key w2 (by intro c hc; cases hc) h2 hkt
  have hv : TrimSpace (w3 ++ ds) = ds := by
    simpa using TrimSpace_sandwich w3 ds [] h3 (by intro c hc; cases hc) (digits_trimmed ds hdig)
  have hP : ParseUint ds = .ok n := (ParseUint_ok_iff ds n).mpr ⟨hne, hdig, hval, hlt⟩
  have hne2 : TrimSpace line ≠ [] := by rw [hT]; simp
  unfold lineEntry
  simp only [hne2, if_false, hS]
  simp [hkey, hv, hP]

theorem KeyDigits_of_lineEntry (line key : GoString) (n : Nat)
    (h : lineEntry line = some (key, n)) : KeyDigits line key n := by
  unfold lineEntry at h
  simp only at h
  split_ifs at h with h1 h2
  have h2' : (Split (TrimSpace line) ':').length = 2 := by simpa using h2
  obtain ⟨x, y, hxy, hx, hy, hS⟩ := Split_length_two _ _ h2'
  rw [hS] at h
  simp only [List.getD_cons_zero, List.getD_cons_succ] at h
  split at h
  · cases h
  · rename_i val hP
    injection h with h
    injection h with hkey hval
    subst hval
    obtain ⟨hne, hdig, hv, hlt⟩ := (ParseUint_ok_iff _ _).mp hP
    obtain ⟨a, b, hl, ha, hb⟩ := TrimSpace_decomp line
    obtain ⟨a1, b1, hx1, ha1, hb1⟩ := TrimSpace_decomp x
    obtain ⟨a2, b2, hy1, ha2, hb2⟩ := TrimSpace_decomp y
    rw [hkey] at hx1
    refine ⟨a ++ a1, b1, a2, b2 ++ b, TrimSpace y, ?_, ?_, hb1, ha2, ?_, ?_, ?_, hne, hdig, hv, hlt⟩
    · conv_lhs => rw [hl, hxy]
      conv_lhs => rw [hx1]
      conv_lhs => rw [hy1]
      simp [List.append_assoc]
    · intro c hc
      rcases List.mem_append.mp hc with h | h
      · exact ha c h
      · exact ha1 c h
    · intro c hc
      rcases List.mem_append.mp hc with h | h
      · exact hb2 c h
      · exact hb c h
    · intro hm
      apply hx
      rw [hx1]
      simp [hm]
    · rw [← hkey]
      exact TrimSpace_trimmed x

theorem lineEntry_iff (line key : GoString) (n : Nat) :
    lineEntry line = some (key, n) ↔ KeyDigits line key n :=
  ⟨KeyDigits_of_lineEntry line key n, lineEntry_of_KeyDigits line key n⟩

theorem lineEntry_congr (a b : GoString) (h : TrimSpace a = TrimSpace b) :
    lineEntry a = lineEntry b := by
  unfold lineEntry
  rw [h]

theorem isSpace_cr : isSpace '\r' = true := by decide

theorem TrimSpace_dropCR (l : GoString) : TrimSpace (dropCR l) = TrimSpace l := by
  unfold dropCR
  split_ifs with h
  · have e : l = l.dropLast ++ ['\r'] := by
      have := List.dropLast_append_getLast? '\r' (by simpa using h)
      exact this.symm
    conv_rhs => rw [e]
    rw [TrimSpace_append_allSpace]
    intro c hc
    rw [List.mem_singleton.mp hc]
    exact isSpace_cr
  · rfl

theorem statsLine_dropCR (m : Stats) (l : GoString) :
    statsLine m (dropCR l) = statsLine m l := by
  rw [statsLine_eq, statsLine_eq, lineEntry_congr _ _ (TrimSpace_dropCR l)]

theorem foldl_statsLine_dropCR (ls : List GoString) (m : Stats) :
    (ls.map dropCR).foldl statsLine m = ls.foldl statsLine m := by
  induction ls generalizing m with
  | nil => rfl
  | cons l ls ih => simp [List.foldl_cons, statsLine_dropCR, ih]

theorem scanTokens_of_fit (ls : List GoString)
    (h : ∀ l ∈ ls, utf8Len l < MaxScanTokenSize) :
    scanTokens ls = (ls.map dropCR, false) := by
  induction ls with
  | nil => rfl
  | cons l ls ih =>
    have h1 : ¬ utf8Len l ≥ MaxScanTokenSize := by
      have := h l (List.mem_cons_self _ _)
      omega
    have h2 := ih (fun x hx => h x (List.mem_cons_of_mem _ hx))
    simp [scanTokens, h1, h2]

theorem getDeviceStats_of_fit (out : GoString)
    (h : ∀ l ∈ rawLines out, utf8Len l < MaxScanTokenSize) :
    getDeviceStats (some out) = ((rawLines out).foldl statsLine [], none) := by
  unfold getDeviceStats scanLines
  simp [scanTokens_of_fit _ h, foldl_statsLine_dropCR]

/-! ### The map -/

theorem lookup_filter_ne (m : Stats) (k k2 : GoString) (h : k2 ≠ k) :
    List.lookup k2 (m.filter (fun e => e.1 ≠ k)) = List.lookup k2 m := by
  induction m with
  | nil => rfl
  | cons e m ih =>
    obtain ⟨ek, ev⟩ := e
    by_cases h1 : ek = k
    · subst h1
      have : (k2 == ek) = false := by simpa using h
      simpa [List.filter, List.lookup, this] using ih
    · by_cases h2 : k2 = ek
      · subst h2
        simp [List.filter, List.lookup, h1]
      · have : (k2 == ek) = false := by simpa using h2
        simpa [List.filter, List.lookup, h1, this] using ih

theorem lookup_store (m : Stats) (k k2 : GoString) (v : Nat) :
    List.lookup k2 (m.store k v) = if k2 = k then some v else List.lookup k2 m := by
  unfold Stats.store
  by_cases h : k2 = k
  · subst h
    simp [List.lookup]
  · have : (k2 == k) = false := by simpa using h
    simpa [List.lookup, this, h] using lookup_filter_ne m k k2 h

theorem store_keys_nodup (m : Stats) (k : GoString) (v : Nat)
    (h : (m.map Prod.fst).Nodup) : ((m.store k v).map Prod.fst).Nodup := by
  unfold Stats.store
  simp only [List.map_cons, List.nodup_cons]
  constructor
  · intro hm
    obtain ⟨e, he, hk⟩ := List.mem_map.mp hm
    have := (List.mem_filter.mp he).2
    simp at this
    exact this hk
  · exact (h.sublist ((List.filter_sublist m).map Prod.fst))

theorem statsLine_keys_nodup (m : Stats) (t : GoString)
    (h : (m.map Prod.fst).Nodup) : ((statsLine m t).map Prod.fst).Nodup := by
  rw [statsLine_eq]
  split
  · exact h
  · exact store_keys_nodup _ _ _ h

theorem foldl_statsLine_keys_nodup (ls : List GoString) (m : Stats)
    (h : (m.map Prod.fst).Nodup) : ((ls.foldl statsLine m).map Prod.fst).Nodup := by
  induction ls generalizing m with
  | nil => exact h
  | cons l ls ih => exact ih _ (statsLine_keys_nodup m l h)

theorem lookup_statsLine (m : Stats) (t k : GoString) :
    List.lookup k (statsLine m t) =
      match lineEntry t with
      | none => List.lookup k m
      | some e => if k = e.1 then some e.2 else List.lookup k m := by
  rw [statsLine_eq]
  cases lineEntry t with
  | none => rfl
  | some e => exact lookup_store m e.1 k e.2

theorem lookup_foldl_statsLine (toks : List GoString) (m : Stats) (k : GoString) (n : Nat) :
    List.lookup k (toks.foldl statsLine m) = some n ↔
      (∃ l1 t l2, toks = l1 ++ t :: l2 ∧ lineEntry t = some (k, n) ∧
        ∀ u ∈ l2, ∀ n2, lineEntry u ≠ some (k, n2)) ∨
      ((∀ u ∈ toks, ∀ n2, lineEntry u ≠ some (k, n2)) ∧ List.lookup k m = some n) := by
  induction toks using List.reverseRecOn with
  | nil => simp
  | append_singleton toks t ih =>
    rw [List.foldl_append, List.foldl_cons, List.foldl_nil, lookup_statsLine]
    by_cases hk : ∃ v, lineEntry t = some (k, v)
    · obtain ⟨v, hv⟩ := hk
      rw [hv]
      simp only [if_true]
      constructor
      · intro h
        injection h with h
        subst h
        exact Or.inl ⟨toks, t, [], rfl, hv, by simp⟩
      · rintro (⟨l1, u, l2, hl, hu, hlast⟩ | ⟨hnone, _⟩)
        · rcases List.eq_nil_or_concat l2 with rfl | ⟨l3, x, rfl⟩
          · have := List.append_inj' hl rfl
            have e : t = u := by simpa using this.2
            subst e
            rw [hv] at hu
            injection hu with hu
            injection hu with _ hu
            rw [hu]
          · have e : toks ++ [t] = (l1 ++ u :: l3) ++ [x] := by rw [hl]; simp
            have := List.append_inj' e rfl
            have e2 : t = x := by simpa using this.2
            subst e2
            exact absurd hv (hlast t (by simp) v)
        · exact absurd hv (hnone t (by simp) v)
    · have hk2 : ∀ v, lineEntry t ≠ some (k, v) := fun v hv => hk ⟨v, hv⟩
      have hstep : (match lineEntry t with
          | none => List.lookup k (List.foldl statsLine m toks)
          | some e => if k = e.1 then some e.2 else List.lookup k (List.foldl statsLine m toks))
          = List.lookup k (List.foldl statsLine m toks) := by
        cases hq : lineEntry t with
        | none => rfl
        | some e =>
          obtain ⟨ek, ev⟩ := e
          by_cases hke : k = ek
          · subst hke
            exact absurd hq (hk2 ev)
          · simp [hke]
      rw [hstep, ih]
      constructor
      · rintro (⟨l1, u, l2, hl, hu, hlast⟩ | ⟨hnone, hm⟩)
        · refine Or.inl ⟨l1, u, l2 ++ [t], by rw [hl]; simp, hu, ?_⟩
          intro x hx n2
          rcases List.mem_append.mp hx with h | h
          · exact hlast x h n2
          · rw [List.mem_singleton.mp h]
            exact hk2 n2
        · refine Or.inr ⟨?_, hm⟩
          intro x hx n2
          rcases List.mem_append.mp hx with h | h
          · exact hnone x h n2
          · rw [List.mem_singleton.mp h]
            exact hk2 n2
      · rintro (⟨l1, u, l2, hl, hu, hlast⟩ | ⟨hnone, hm⟩)
        · rcases List.eq_nil_or_concat l2 with rfl | ⟨l3, x, rfl⟩
          · have := List.append_inj' hl rfl
            have e : t = u := by simpa using this.2
            subst e
            exact absurd hu (hk2 n)
          · have e : toks ++ [t] = (l1 ++ u :: l3) ++ [x] := by rw [hl]; simp
            have := List.append_inj' e rfl
            refine Or.inl ⟨l1, u, l3, this.1, hu, ?_⟩
            intro y hy n2
            exact hlast y (by simp [hy]) n2
        · exact Or.inr ⟨fun x hx n2 => hnone x (by simp [hx]) n2, hm⟩

/-! ### Fields -/

theorem Fields_cons_space (c : Char) (cs : GoString) (hc : isSpace c = true) :
    Fields (c :: cs) = Fields cs := by
  cases cs with
  | nil => simp [Fields, hc]
  | cons d ds => rw [Fields, if_pos hc]

theorem Fields_allSpace (w : GoString) (hw : AllSpace w) : Fields w = [] := by
  induction w with
  | nil => rfl
  | cons c cs ih =>
    have hc : isSpace c = true := hw c (List.mem_cons_self _ _)
    rw [Fields_cons_space c cs hc]
    exact ih (fun x hx => hw x (List.mem_cons_of_mem _ hx))

theorem Fields_allSpace_append (w s : GoString) (hw : AllSpace w) :
    Fields (w ++ s) = Fields s := by
  induction w with
  | nil => rfl
  | cons c cs ih =>
    have hc : isSpace c = true := hw c (List.mem_cons_self _ _)
    rw [List.cons_append, Fields_cons_space _ _ hc]
    exact ih (fun x hx => hw x (List.mem_cons_of_mem _ hx))

theorem Fields_append_allSpace (s w : GoString) (hw : AllSpace w) :
    Fields (s ++ w) = Fields s := by
  induction s with
  | nil => simpa [Fields] using Fields_allSpace w hw
  | cons c cs ih =>
    by_cases hc : isSpace c = true
    · rw [List.cons_append, Fields_cons_space _ _ hc, Fields_cons_space _ _ hc, ih]
    · cases cs with
      | nil =>
        cases w with
        | nil => rfl
        | cons d ds =>
          have hd : isSpace d = true := hw d (List.mem_cons_self _ _)
          have e : Fields (d :: ds) = [] := Fields_allSpace _ hw
          simp [Fields, hc, hd, e]
      | cons d ds =>
        simp only [List.cons_append] at ih ⊢
        rw [Fields, Fields, ih]

theorem Fields_TrimSpace (s : GoString) : Fields (TrimSpace s) = Fields s := by
  obtain ⟨a, b, hs, ha, hb⟩ := TrimSpace_decomp s
  conv_rhs => rw [hs]
  rw [Fields_append_allSpace _ _ hb, Fields_allSpace_append _ _ ha]

theorem Fields_dropCR (l : GoString) : Fields (dropCR l) = Fields l := by
  rw [← Fields_TrimSpace (dropCR l), TrimSpace_dropCR, Fields_TrimSpace]

theorem deviceOfLine_dropCR (l : GoString) : deviceOfLine (dropCR l) = deviceOfLine l := by
  unfold deviceOfLine
  rw [Fields_dropCR]

theorem devicesLine_eq (ds : List Device) (i : Nat) (t : GoString) :
    devicesLine (ds, i) t =
      (if i + 1 ≤ 2 then ds else ds ++ (deviceOfLine t).toList, i + 1) := by
  unfold devicesLine deviceOfLine
  simp only
  by_cases h1 : i + 1 ≤ 2
  · simp [h1]
  · simp only [h1, if_false]
    by_cases h2 : TrimSpace t = []
    · have : Fields t = [] := Fields_allSpace t ((TrimSpace_eq_nil_iff t).mp h2)
      simp [h2, this]
    · simp only [h2, if_false, Fields_TrimSpace]
      by_cases h3 : 2 ≤ (Fields t).length
      · simp [h3]
      · simp [h3]

theorem foldl_devicesLine (toks : List GoString) (ds : List Device) (i : Nat) :
    (toks.foldl devicesLine (ds, i)).1 =
      ds ++ (toks.drop (2 - i)).filterMap deviceOfLine := by
  induction toks generalizing ds i with
  | nil => simp
  | cons t toks ih =>
    rw [List.foldl_cons, devicesLine_eq, ih]
    by_cases h1 : i + 1 ≤ 2
    · have e : 2 - i = (2 - (i + 1)) + 1 := by omega
      simp only [h1, if_true]
      rw [e, List.drop_succ_cons]
    · have e1 : 2 - (i + 1) = 0 := by omega
      have e2 : 2 - i = 0 := by omega
      simp only [h1, if_false, e1, e2, List.drop_zero, List.filterMap_cons]
      cases deviceOfLine t <;> simp

theorem filterMap_deviceOfLine_dropCR (ls : List GoString) :
    (ls.map dropCR).filterMap deviceOfLine = ls.filterMap deviceOfLine := by
  induction ls with
  | nil => rfl
  | cons l ls ih => simp [List.filterMap_cons, deviceOfLine_dropCR, ih]

theorem getDevices_of_fit (out : GoString)
    (h : ∀ l ∈ rawLines out, utf8Len l < MaxScanTokenSize) :
    getDevices (some out) = (((rawLines out).drop 2).filterMap deviceOfLine, none) := by
  unfold getDevices scanLines
  simp only [scanTokens_of_fit _ h, Bool.false_eq_true, if_false]
  rw [foldl_devicesLine]
  simp only [List.nil_append, Nat.sub_zero, ← List.map_drop]
  rw [filterMap_deviceOfLine_dropCR]

theorem length_filterMap_deviceOfLine (ls : List GoString) :
    (ls.filterMap deviceOfLine).length = ls.countP (fun l => 2 ≤ (Fields l).length) := by
  induction ls with
  | nil => rfl
  | cons l ls ih =>
    by_cases h : 2 ≤ (Fields l).length
    · simp [List.filterMap_cons, deviceOfLine, h, ih, List.countP_cons]
    · simp [List.filterMap_cons, deviceOfLine, h, ih, List.countP_cons]

theorem excessBits_of_lt (fuel v : Nat) (h : v < 2 ^ 53) : excessBits fuel v = 0 := by
  cases fuel with
  | zero => rfl
  | succ f => rw [excessBits, if_pos h]

theorem float64OfUint64_exact (v : Nat) (h : v ≤ 2 ^ 53) : float64OfUint64 v = v := by
  rcases Nat.lt_or_eq_of_le h with h1 | h1
  · unfold float64OfUint64
    simp [excessBits_of_lt 11 v h1, Nat.mod_one]
  · subst h1
    decide

theorem emitMetric_eq (device nodeName : GoString) (stats : Stats) (p : Desc × GoString) :
    emitMetric device nodeName stats p.1 p.2 = (counterSample device nodeName stats p).toList := by
  unfold emitMetric counterSample
  cases List.lookup p.2 stats <;> rfl

theorem flatMap_toList_eq_filterMap {α β : Type} (f : α → Option β) (l : List α) :
    l.flatMap (fun a => (f a).toList) = l.filterMap f := by
  induction l with
  | nil => rfl
  | cons a l ih =>
    rw [List.flatMap_cons, ih, List.filterMap_cons]
    cases f a <;> rfl

theorem emitStats_eq_filterMap (c : ErdmaCollector) (device nodeName : GoString)
    (stats : Stats) :
    emitStats c device nodeName stats =
      (emitCalls c).filterMap (counterSample device nodeName stats) := by
  unfold emitStats
  rw [← flatMap_toList_eq_filterMap]
  congr 1
  funext p
  exact emitMetric_eq device nodeName stats p

theorem length_filterMap_counterSample (device nodeName : GoString) (stats : Stats)
    (l : List (Desc × GoString)) :
    (l.filterMap (counterSample device nodeName stats)).length =
      l.countP (fun p => (List.lookup p.2 stats).isSome) := by
  induction l with
  | nil => rfl
  | cons p l ih =>
    rw [List.filterMap_cons, List.countP_cons]
    unfold counterSample at ih ⊢
    cases h : List.lookup p.2 stats <;> simp [h, ih]

theorem filterMap_counterSample_congr (device nodeName : GoString) (s1 s2 : Stats)
    (l : List (Desc × GoString))
    (h : ∀ p ∈ l, List.lookup p.2 s2 = List.lookup p.2 s1) :
    l.filterMap (counterSample device nodeName s2) =
      l.filterMap (counterSample device nodeName s1) := by
  induction l with
  | nil => rfl
  | cons p l ih =>
    rw [List.filterMap_cons, List.filterMap_cons,
      ih (fun q hq => h q (List.mem_cons_of_mem _ hq))]
    have : counterSample device nodeName s2 p = counterSample device nodeName s1 p := by
      unfold counterSample
      rw [h p (List.mem_cons_self _ _)]
    rw [this]

/-! ### Collect -/

theorem deviceBlock_eq (c : ErdmaCollector) (env : Env) (i : Nat) (d : Device) :
    deviceInfo c env.getNodeName d :: deviceCounters c env env.getNodeName i d =
      deviceBlock c env (i, d) := by
  unfold deviceBlock deviceCounters
  by_cases h : (env.getDeviceStats i d.Name).2 = none <;> simp [h]

theorem collectDevices_eq (c : ErdmaCollector) (env : Env) (i : Nat) (devs : List Device) :
    collectDevices c env env.getNodeName i devs =
      (devs.enumFrom i).flatMap (deviceBlock c env) := by
  induction devs generalizing i with
  | nil => rfl
  | cons d devs ih =>
    rw [collectDevices, List.enumFrom_cons, List.flatMap_cons, ← ih, ← deviceBlock_eq]
    rfl

theorem Collect_of_devices (c : ErdmaCollector) (env : Env) (devs : List Device)
    (h : env.getDevices = (devs, none)) :
    Collect c env = versionSamples c env ++ devs.enum.flatMap (deviceBlock c env) := by
  unfold Collect
  simp only [h, ne_eq, not_true_eq_false, if_false]
  rw [collectDevices_eq]
  rfl

theorem Collect_of_devices_error (c : ErdmaCollector) (env : Env)
    (h : env.getDevices.2 ≠ none) : Collect c env = versionSamples c env := by
  unfold Collect
  simp [h]

theorem flatMap_enumFrom_congr {β : Type} (f g : Nat × Device → List β) (l : List Device)
    (n : Nat) (h : ∀ i d, n ≤ i → i < n + l.length → f (i, d) = g (i, d)) :
    (l.enumFrom n).flatMap f = (l.enumFrom n).flatMap g := by
  induction l generalizing n with
  | nil => rfl
  | cons d l ih =>
    rw [List.enumFrom_cons, List.flatMap_cons, List.flatMap_cons,
      h n d (Nat.le_refl _) (by simp)]
    rw [ih (n + 1) (fun i d hi hlt => h i d (by omega) (by simp at hlt ⊢; omega))]

theorem versionSamples_desc (c : ErdmaCollector) (env : Env) :
    ∀ s ∈ versionSamples c env, s.desc = c.versionDesc := by
  intro s hs
  unfold versionSamples at hs
  split_ifs at hs
  · rw [List.mem_singleton.mp hs]
    rfl
  · cases hs

theorem emitStats_sample (c : ErdmaCollector) (device nodeName : GoString) (stats : Stats) :
    ∀ s ∈ emitStats c device nodeName stats,
      s.valueType = .CounterValue ∧ s.labelValues = [device, nodeName] := by
  intro s hs
  rw [emitStats_eq_filterMap] at hs
  obtain ⟨p, _, hp⟩ := List.mem_filterMap.mp hs
  unfold counterSample at hp
  cases h : List.lookup p.2 stats with
  | none => rw [h] at hp; cases hp
  | some v =>
    rw [h] at hp
    injection hp with hp
    subst hp
    exact ⟨rfl, rfl⟩

theorem deviceCounters_sample (c : ErdmaCollector) (env : Env) (i : Nat) (d : Device) :
    ∀ s ∈ deviceCounters c env env.getNodeName i d,
      s.valueType = .CounterValue ∧ s.labelValues = [d.Name, env.getNodeName] := by
  intro s hs
  unfold deviceCounters at hs
  simp only at hs
  split_ifs at hs
  · cases hs
  · exact emitStats_sample c _ _ _ s hs

theorem count_le_count_flatMap (c : ErdmaCollector) (env : Env) (d : Device)
    (l : List Device) (n : Nat) :
    l.count d ≤
      ((l.enumFrom n).flatMap (deviceBlock c env)).count (deviceInfo c env.getNodeName d) := by
  induction l generalizing n with
  | nil => simp
  | cons x l ih =>
    rw [List.enumFrom_cons, List.flatMap_cons, List.count_append, List.count_cons]
    have h1 := ih (n + 1)
    have h2 : (if (x == d) = true then 1 else 0) ≤
        (deviceBlock c env (n, x)).count (deviceInfo c env.getNodeName d) := by
      by_cases hx : x = d
      · subst hx
        unfold deviceBlock
        simp
      · have : (x == d) = false := by simpa using hx
        simp [this]
    omega

/-! ### The pattern matcher -/

theorem firstDown_top {α : Type} (f : Nat → Option α) (n : Nat) (r : α) (hn : 0 < n)
    (h : f n = some r) : firstDown f n = some r := by
  cases n with
  | zero => omega
  | succ m => simp [firstDown, h]

theorem firstDown_none {α : Type} (f : Nat → Option α) (n : Nat)
    (h : ∀ k, 1 ≤ k → k ≤ n → f k = none) : firstDown f n = none := by
  induction n with
  | zero => rfl
  | succ m ih =>
    simp only [firstDown, h (m + 1) (by omega) (Nat.le_refl _)]
    exact ih (fun k h1 h2 => h k h1 (by omega))

theorem take_length_takeWhile {α : Type} (p : α → Bool) (s : List α) :
    s.take (s.takeWhile p).length = s.takeWhile p := by
  induction s with
  | nil => rfl
  | cons c cs ih =>
    by_cases hc : p c = true
    · simp [List.takeWhile, hc, ih]
    · simp [List.takeWhile, hc]

theorem drop_length_takeWhile {α : Type} (p : α → Bool) (s : List α) :
    s.drop (s.takeWhile p).length = s.dropWhile p := by
  induction s with
  | nil => rfl
  | cons c cs ih =>
    by_cases hc : p c = true
    · simp [List.takeWhile, List.dropWhile, hc, ih]
    · simp [List.takeWhile, List.dropWhile, hc]

theorem drop_lt_takeWhile {α : Type} (p : α → Bool) (s : List α) (k : Nat)
    (hk : k < (s.takeWhile p).length) : ∃ c t, s.drop k = c :: t ∧ p c = true := by
  induction s generalizing k with
  | nil => simp at hk
  | cons c cs ih =>
    by_cases hc : p c = true
    · cases k with
      | zero => exact ⟨c, cs, rfl, hc⟩
      | succ j =>
        simp only [List.takeWhile, hc, List.length_cons] at hk
        exact ih j (by omega)
    · simp [List.takeWhile, hc] at hk

theorem takeWhile_append_stop {α : Type} (p : α → Bool) (a b : List α)
    (ha : ∀ c ∈ a, p c = true) (hb : ∀ c ∈ b.head?, p c = false) :
    (a ++ b).takeWhile p = a ∧ (a ++ b).dropWhile p = b := by
  induction a with
  | nil =>
    cases b with
    | nil => exact ⟨rfl, rfl⟩
    | cons c cs =>
      have := hb c rfl
      simp [List.takeWhile, List.dropWhile, this]
  | cons c cs ih =>
    have hc := ha c (List.mem_cons_self _ _)
    have := ih (fun x hx => ha x (List.mem_cons_of_mem _ hx))
    simp [List.takeWhile, List.dropWhile, hc, this.1, this.2]

theorem matchHere_lit_cons (c x : Char) (ns : List Node) (xs : GoString) :
    matchHere (Node.lit c :: ns) (x :: xs) =
      if x = c then (matchHere ns xs).map (fun r => (x :: r.1, r.2)) else none := by
  rw [matchHere]

theorem matchHere_lits (lits : GoString) (re : List Node) (s : GoString) :
    matchHere (lits.map Node.lit ++ re) (lits ++ s) =
      (matchHere re s).map (fun r => (lits ++ r.1, r.2)) := by
  induction lits with
  | nil => simp
  | cons c cs ih =>
    rw [List.map_cons, List.cons_append, List.cons_append, matchHere_lit_cons, if_pos rfl, ih,
      Option.map_map]
    rfl

theorem matchHere_lits_some (lits : GoString) (re : List Node) (s : GoString)
    (r : GoString × Option GoString)
    (h : matchHere (lits.map Node.lit ++ re) s = some r) : ∃ t, s = lits ++ t := by
  induction lits generalizing s r with
  | nil => exact ⟨s, rfl⟩
  | cons c cs ih =>
    cases s with
    | nil => simp [matchHere] at h
    | cons x xs =>
      rw [List.map_cons, List.cons_append, matchHere_lit_cons] at h
      split_ifs at h with hx
      subst hx
      cases hq : matchHere (List.map Node.lit cs ++ re) xs with
      | none => rw [hq] at h; cases h
      | some r2 =>
        obtain ⟨t, ht⟩ := ih xs r2 hq
        exact ⟨t, by rw [ht]; rfl⟩

theorem matchHere_plus_capture (p : Char → Bool) (s : GoString) :
    matchHere [Node.plus p true] s =
      if s.takeWhile p = [] then none
      else some (s.takeWhile p, some (s.takeWhile p)) := by
  simp only [matchHere, Option.map_some', List.append_nil, if_true]
  by_cases h : s.takeWhile p = []
  · simp [h, firstDown]
  · simp only [h, if_false]
    apply firstDown_top
    · exact List.length_pos.mpr h
    · rw [take_length_takeWhile]

theorem matchHere_tail (s : GoString) :
    matchHere [Node.plus reSpace false, Node.plus (fun c => !reSpace c) true] s =
      if s.takeWhile reSpace ≠ [] ∧
          (s.dropWhile reSpace).takeWhile (fun c => !reSpace c) ≠ [] then
        some (s.takeWhile reSpace ++ (s.dropWhile reSpace).takeWhile (fun c => !reSpace c),
          some ((s.dropWhile reSpace).takeWhile (fun c => !reSpace c)))
      else none := by
  rw [matchHere]
  simp only [matchHere_plus_capture, Bool.false_eq_true, if_false]
  by_cases h : s.takeWhile reSpace ≠ [] ∧
      (s.dropWhile reSpace).takeWhile (fun c => !reSpace c) ≠ []
  · rw [if_pos h]
    apply firstDown_top
    · exact List.length_pos.mpr h.1
    · rw [drop_length_takeWhile, take_length_takeWhile]
      simp [h.2]
  · rw [if_neg h]
    apply firstDown_none
    intro k hk1 hk2
    rcases Nat.lt_or_eq_of_le hk2 with hlt | heq
    · obtain ⟨c, t, hd, hc⟩ := drop_lt_takeWhile reSpace s k hlt
      simp [hd, List.takeWhile, hc]
    · have hne : s.takeWhile reSpace ≠ [] := by
        intro h0
        rw [h0] at heq
        simp at heq
        omega
      have h2 : (s.dropWhile reSpace).takeWhile (fun c => !reSpace c) = [] := by
        by_contra h3
        exact h ⟨hne, h3⟩
      rw [heq, drop_length_takeWhile, h2]
      simp

theorem matchHere_versionRe (s : GoString) : matchHere versionRe s = versionHere s := by
  unfold versionHere
  by_cases hp : versionLabel <+: s
  · obtain ⟨t, ht⟩ := hp
    subst ht
    have hpre : versionLabel <+: versionLabel ++ t := List.prefix_append _ _
    simp only [hpre, if_true, List.drop_left]
    unfold versionRe
    rw [matchHere_lits, matchHere_tail]
    by_cases h : t.takeWhile reSpace ≠ [] ∧
        (t.dropWhile reSpace).takeWhile (fun c => !reSpace c) ≠ []
    · rw [if_pos h, if_pos h]
      simp [List.append_assoc]
    · rw [if_neg h, if_neg h]
      rfl
  · simp only [hp, if_false]
    cases hq : matchHere versionRe s with
    | none => rfl
    | some r =>
      exfalso
      obtain ⟨t, ht⟩ := matchHere_lits_some versionLabel _ s r hq
      exact hp ⟨t, ht.symm⟩

theorem findFrom_of_leftmost (re : List Node) (pre t : GoString)
    (r : GoString × Option GoString) (h : matchHere re t = some r)
    (hleft : ∀ p2 t2, pre ++ t = p2 ++ t2 → p2.length < pre.length → matchHere re t2 = none) :
    findFrom re (pre ++ t) = some r := by
  induction pre with
  | nil =>
    cases t with
    | nil => simpa [findFrom] using h
    | cons x xs => simp [findFrom, h]
  | cons c pre ih =>
    have h0 : matchHere re (c :: (pre ++ t)) = none :=
      hleft [] (c :: (pre ++ t)) rfl (by simp)
    rw [List.cons_append, findFrom, h0]
    apply ih
    intro p2 t2 he hlt
    exact hleft (c :: p2) t2 (by rw [List.cons_append, he]; rfl) (by simp; omega)

theorem findFrom_none_iff (re : List Node) (s : GoString) :
    findFrom re s = none ↔ ∀ pre t, s = pre ++ t → matchHere re t = none := by
  induction s with
  | nil =>
    simp only [findFrom]
    constructor
    · intro h pre t he
      have := List.append_eq_nil.mp he.symm
      rw [this.2]
      exact h
    · intro h
      exact h [] [] rfl
  | cons x xs ih =>
    simp only [findFrom]
    constructor
    · intro h pre t he
      cases hq : matchHere re (x :: xs) with
      | some r => rw [hq] at h; cases h
      | none =>
        rw [hq] at h
        cases pre with
        | nil =>
          rw [List.nil_append] at he
          rw [← he]
          exact hq
        | cons c pre =>
          rw [List.cons_append] at he
          injection he with _ he
          exact (ih.mp h) pre t he
    · intro h
      rw [h [] (x :: xs) rfl]
      exact ih.mpr (fun pre t he => h (x :: pre) t (by rw [he]; rfl))

theorem findFrom_some (re : List Node) (s : GoString) (r : GoString × Option GoString)
    (h : findFrom re s = some r) : ∃ pre t, s = pre ++ t ∧ matchHere re t = some r := by
  induction s with
  | nil => exact ⟨[], [], rfl, by simpa [findFrom] using h⟩
  | cons x xs ih =>
    simp only [findFrom] at h
    cases hq : matchHere re (x :: xs) with
    | some r2 =>
      rw [hq] at h
      exact ⟨[], x :: xs, rfl, by rw [hq]; exact h⟩
    | none =>
      rw [hq] at h
      obtain ⟨pre, t, he, hm⟩ := ih h
      exact ⟨x :: pre, t, by rw [he]; rfl, hm⟩

theorem dropWhile_head_not {α : Type} (p : α → Bool) (s : List α) :
    ∀ c ∈ (s.dropWhile p).head?, p c = false := by
  induction s with
  | nil => simp
  | cons c cs ih =>
    intro x hx
    by_cases hc : p c = true
    · simp only [List.dropWhile, hc] at hx
      exact ih x hx
    · simp only [List.dropWhile, hc] at hx
      simp at hx
      subst hx
      simpa using hc

theorem takeWhile_all {α : Type} (p : α → Bool) (s : List α) :
    ∀ c ∈ s.takeWhile p, p c = true := fun _ hc => List.mem_takeWhile_imp hc

theorem versionHere_of_occurrence (ws tok rest : GoString)
    (hws : ws ≠ []) (hsp : ∀ c ∈ ws, reSpace c = true)
    (htok : tok ≠ []) (hns : ∀ c ∈ tok, reSpace c = false) :
    versionHere (versionLabel ++ ws ++ tok ++ rest) =
      some (versionLabel ++ ws ++ (tok ++ rest.takeWhile (fun c => !reSpace c)),
        some (tok ++ rest.takeWhile (fun c => !reSpace c))) := by
  unfold versionHere
  have hpre : versionLabel <+: versionLabel ++ ws ++ tok ++ rest := by
    rw [List.append_assoc, List.append_assoc]
    exact List.prefix_append _ _
  have hdrop : (versionLabel ++ ws ++ tok ++ rest).drop versionLabel.length
      = ws ++ (tok ++ rest) := by
    rw [List.append_assoc, List.append_assoc, List.drop_left]
  have hhead : ∀ c ∈ (tok ++ rest).head?, reSpace c = false := by
    cases tok with
    | nil => exact absurd rfl htok
    | cons a as =>
      intro c hc
      simp at hc
      subst hc
      exact hns _ (List.mem_cons_self _ _)
  obtain ⟨h1, h2⟩ := takeWhile_append_stop reSpace ws (tok ++ rest) hsp hhead
  have h3 : (tok ++ rest).takeWhile (fun c => !reSpace c)
      = tok ++ rest.takeWhile (fun c => !reSpace c) := by
    apply List.takeWhile_append_of_pos
    intro c hc
    simp [hns c hc]
  simp only [hpre, if_true, hdrop, h1, h2, h3]
  have : ws ≠ [] ∧ tok ++ rest.takeWhile (fun c => !reSpace c) ≠ [] :=
    ⟨hws, by simp [htok]⟩
  rw [if_pos this]

theorem occurrence_of_versionHere (s : GoString) (r : GoString × Option GoString)
    (h : versionHere s = some r) :
    ∃ ws tok rest, s = versionLabel ++ ws ++ tok ++ rest ∧
      ws ≠ [] ∧ (∀ c ∈ ws, reSpace c = true) ∧
      tok ≠ [] ∧ (∀ c ∈ tok, reSpace c = false) ∧
      (∀ c ∈ rest.head?, reSpace c = true) ∧
      r = (versionLabel ++ ws ++ tok, some tok) := by
  unfold versionHere at h
  simp only at h
  split_ifs at h with hp hc
  obtain ⟨t, ht⟩ := hp
  subst ht
  simp only [List.drop_left] at h hc
  injection h with h
  refine ⟨t.takeWhile reSpace, (t.dropWhile reSpace).takeWhile (fun c => !reSpace c),
    (t.dropWhile reSpace).dropWhile (fun c => !reSpace c), ?_, hc.1, takeWhile_all _ _, hc.2,
    ?_, ?_, h.symm⟩
  · rw [List.append_assoc, List.append_assoc, List.takeWhile_append_dropWhile,
      List.takeWhile_append_dropWhile]
  · intro c hc
    simpa using takeWhile_all (fun c => !reSpace c) _ c hc
  · intro c hc
    simpa using dropWhile_head_not (fun c => !reSpace c) _ c hc

theorem findFrom_versionRe_none_iff (out : GoString) :
    findFrom versionRe out = none ↔
      ¬ ∃ pre ws tok rest, VersionOccurrence out pre ws tok rest := by
  rw [findFrom_none_iff]
  constructor
  · rintro h ⟨pre, ws, tok, rest, he, hws, hsp, htok, hns⟩
    have := h pre (versionLabel ++ ws ++ tok ++ rest) (by rw [he]; simp [List.append_assoc])
    rw [matchHere_versionRe, versionHere_of_occurrence ws tok rest hws hsp htok hns] at this
    cases this
  · intro h pre t he
    rw [matchHere_versionRe]
    cases hq : versionHere t with
    | none => rfl
    | some r =>
      exfalso
      obtain ⟨ws, tok, rest, ht, hws, hsp, htok, hns, _, _⟩ := occurrence_of_versionHere t r hq
      exact h ⟨pre, ws, tok, rest, by rw [he, ht]; simp [List.append_assoc], hws, hsp, htok, hns⟩

theorem getVersion_error_iff (out : GoString) :
    (getVersion (some out)).2 ≠ none ↔ findFrom versionRe out = none := by
  have e : getVersion (some out) =
      (if (FindStringSubmatch versionRe out).length > 1 then
        ((FindStringSubmatch versionRe out).getD 1 [], none)
      else ([], some .parse)) := rfl
  rw [e]
  unfold FindStringSubmatch
  cases hq : findFrom versionRe out with
  | none => simp
  | some r => simp

theorem getVersion_of_find (out whole tok : GoString)
    (h : findFrom versionRe out = some (whole, some tok)) :
    getVersion (some out) = (tok, none) := by
  unfold getVersion FindStringSubmatch
  simp [h]

theorem getVersion_of_none (out : GoString) (h : findFrom versionRe out = none) :
    getVersion (some out) = ([], some .parse) := by
  unfold getVersion FindStringSubmatch
  simp [h]

theorem mem_of_append_eq {α : Type} (a x pre y : List α) (h : a ++ x = (pre ++ a) ++ y) :
    ∀ c ∈ y, c ∈ x := by
  have h1 : x = (pre ++ a).drop a.length ++ y := by
    have := congrArg (List.drop a.length) h
    rw [List.drop_left, List.drop_append_of_le_length (by simp)] at this
    exact this
  intro c hc
  rw [h1]
  exact List.mem_append_right _ hc

theorem no_occurrence_label_token (tok : GoString) (h : ∀ c ∈ tok, reSpace c = false) :
    ¬ ∃ pre ws t rest, VersionOccurrence (versionLabel ++ tok) pre ws t rest := by
  rintro ⟨pre, ws, t, rest, he, hws, hsp, _, _⟩
  cases ws with
  | nil => exact hws rfl
  | cons c cs =>
    have hc : c ∈ tok := by
      apply mem_of_append_eq versionLabel tok pre ((c :: cs) ++ t ++ rest)
      · rw [he]; simp [List.append_assoc]
      · simp
    have h1 := h c hc
    have h2 := hsp c (List.mem_cons_self _ _)
    rw [h1] at h2
    cases h2

theorem no_occurrence_label_spaces (ws : GoString) (h : ∀ c ∈ ws, reSpace c = true) :
    ¬ ∃ pre w t rest, VersionOccurrence (versionLabel ++ ws) pre w t rest := by
  rintro ⟨pre, w, t, rest, he, _, _, ht, hns⟩
  cases t with
  | nil => exact ht rfl
  | cons c cs =>
    have hc : c ∈ ws := by
      apply mem_of_append_eq versionLabel ws pre (w ++ (c :: cs) ++ rest)
      · rw [he]; simp [List.append_assoc]
      · simp
    have h1 := h c hc
    have h2 := hns c (List.mem_cons_self _ _)
    rw [h1] at h2
    cases h2

theorem no_occurrence_nil : ¬ ∃ pre ws t rest, VersionOccurrence [] pre ws t rest := by
  rintro ⟨pre, ws, t, rest, he, _, _⟩
  have := congrArg List.length he
  simp at this
  have hl : versionLabel.length = 28 := by decide
  omega

/-! ### Malformed lines -/

theorem split_at_sep_unique (x y pre post : GoString) (sep : Char)
    (hx : sep ∉ x) (hy : sep ∉ y) (h : x ++ sep :: y = pre ++ sep :: post) :
    pre = x ∧ post = y := by
  induction x generalizing pre with
  | nil =>
    cases pre with
    | nil =>
      simp only [List.nil_append, List.cons.injEq, true_and] at h
      exact ⟨rfl, h.symm⟩
    | cons c pre =>
      simp only [List.nil_append, List.cons_append, List.cons.injEq] at h
      exfalso
      apply hy
      rw [h.2]
      simp
  | cons a x ih =>
    have ha : a ≠ sep := fun e => hx (e ▸ List.mem_cons_self _ _)
    cases pre with
    | nil =>
      simp only [List.nil_append, List.cons_append, List.cons.injEq] at h
      exact absurd h.1 ha
    | cons c pre =>
      simp only [List.cons_append, List.cons.injEq] at h
      obtain ⟨h1, h2⟩ := ih pre (fun hm => hx (List.mem_cons_of_mem _ hm)) h.2
      exact ⟨by rw [h.1, h1], h2⟩

theorem lineEntry_of_malformed (line : GoString) (h : Malformed line) :
    lineEntry line = none := by
  cases hq : lineEntry line with
  | none => rfl
  | some e =>
    exfalso
    obtain ⟨k, n⟩ := e
    obtain ⟨w1, w2, w3, w4, ds, hl, h1, h2, h3, h4, hk, _, hne, hdig, _, _⟩ :=
      KeyDigits_of_lineEntry line k n hq
    rcases h with h | ⟨pre, post, hp, hnd⟩
    · apply h
      rw [hl]
      simp
    · have hx : ':' ∉ w1 ++ k ++ w2 := by
        intro hm
        rcases List.mem_append.mp hm with hm | hm
        · rcases List.mem_append.mp hm with hm | hm
          · exact colon_not_mem_allSpace w1 h1 hm
          · exact hk hm
        · exact colon_not_mem_allSpace w2 h2 hm
      have hy : ':' ∉ w3 ++ ds ++ w4 := by
        intro hm
        rcases List.mem_append.mp hm with hm | hm
        · rcases List.mem_append.mp hm with hm | hm
          · exact colon_not_mem_allSpace w3 h3 hm
          · exact digit_ne_colon _ (hdig _ hm) rfl
        · exact colon_not_mem_allSpace w4 h4 hm
      have := split_at_sep_unique _ _ pre post ':' hx hy (hl ▸ hp)
      exact hnd ⟨w3, ds, w4, this.2, h3, h4, hne, hdig⟩

theorem statsLine_of_malformed (m : Stats) (line : GoString) (h : Malformed line) :
    statsLine m (dropCR line) = m := by
  rw [statsLine_dropCR, statsLine_eq, lineEntry_of_malformed line h]

theorem scan_insert_malformed (l1 l2 : List GoString) (bad : GoString) (m : Stats)
    (hbad : Malformed bad) (hfit : utf8Len bad < MaxScanTokenSize) :
    ((scanTokens (l1 ++ bad :: l2)).1.foldl statsLine m, (scanTokens (l1 ++ bad :: l2)).2) =
      ((scanTokens (l1 ++ l2)).1.foldl statsLine m, (scanTokens (l1 ++ l2)).2) := by
  induction l1 generalizing m with
  | nil =>
    have h1 : ¬ utf8Len bad ≥ MaxScanTokenSize := by omega
    simp only [List.nil_append, scanTokens, h1, if_false, List.foldl_cons,
      statsLine_of_malformed m bad hbad]
  | cons l l1 ih =>
    by_cases hl : utf8Len l ≥ MaxScanTokenSize
    · simp [scanTokens, hl]
    · simp only [List.cons_append, scanTokens, hl, if_false, List.foldl_cons]
      exact ih (statsLine m (dropCR l))

theorem getDeviceStats_insert_malformed (out out2 : GoString) (l1 l2 : List GoString)
    (bad : GoString) (h1 : rawLines out = l1 ++ l2) (h2 : rawLines out2 = l1 ++ bad :: l2)
    (hbad : Malformed bad) (hfit : utf8Len bad < MaxScanTokenSize) :
    getDeviceStats (some out2) = getDeviceStats (some out) := by
  unfold getDeviceStats scanLines
  simp only [h1, h2]
  have := scan_insert_malformed l1 l2 bad [] hbad hfit
  rw [Prod.mk.injEq] at this
  rw [this.1, this.2]

theorem rawLines_append_newline (l rest : GoString) (h : '\n' ∉ l) :
    rawLines (l ++ '\n' :: rest) = l :: rawLines rest := by
  induction l with
  | nil => simp [rawLines]
  | cons c cs ih =>
    have hc : c ≠ '\n' := fun e => h (e ▸ List.mem_cons_self _ _)
    rw [List.cons_append, rawLines, if_neg hc, ih (fun hm => h (List.mem_cons_of_mem _ hm))]

theorem utf8Len_replicate (n : Nat) : utf8Len (List.replicate n 'x') = n := by
  induction n with
  | zero => rfl
  | succ k ih =>
    have e : Char.utf8Size 'x' = 1 := by decide
    unfold utf8Len at ih ⊢
    rw [List.replicate_succ, List.map_cons, List.sum_cons, ih, e]
    omega

theorem rawLines_longLine (rest : GoString) :
    rawLines (longLine ++ '\n' :: rest) = longLine :: rawLines rest := by
  apply rawLines_append_newline
  intro h
  unfold longLine at h
  have := List.eq_of_mem_replicate h
  exact absurd this (by decide)

theorem malformed_longLine : Malformed longLine := by
  left
  intro h
  unfold longLine at h
  have := List.eq_of_mem_replicate h
  exact absurd this (by decide)

theorem getDeviceStats_longLine (rest : GoString) :
    getDeviceStats (some (longLine ++ '\n' :: rest)) = ([], some .scan) := by
  unfold getDeviceStats scanLines
  simp only [rawLines_longLine]
  have : utf8Len longLine ≥ MaxScanTokenSize := by
    unfold longLine
    rw [utf8Len_replicate]
  simp [scanTokens, this]

theorem rawLines_of_not_mem (l : GoString) (h : '\n' ∉ l) (hne : l ≠ []) :
    rawLines l = [l] := by
  induction l with
  | nil => exact absurd rfl hne
  | cons c cs ih =>
    have hc : c ≠ '\n' := fun e => h (e ▸ List.mem_cons_self _ _)
    rw [rawLines, if_neg hc]
    cases cs with
    | nil => rfl
    | cons d ds =>
      rw [ih (fun hm => h (List.mem_cons_of_mem _ hm)) (by simp)]

theorem longLine_ne_nil : longLine ≠ [] := by
  intro h
  have := congrArg List.length h
  unfold longLine at this
  rw [List.length_replicate] at this
  exact absurd this (by decide)

theorem rawLines_longLine_last : rawLines longLine = [longLine] := by
  apply rawLines_of_not_mem _ _ longLine_ne_nil
  intro h
  unfold longLine at h
  have := List.eq_of_mem_replicate h
  exact absurd this (by decide)

theorem utf8Len_longLine : utf8Len longLine ≥ MaxScanTokenSize := by
  unfold longLine
  rw [utf8Len_replicate]

theorem scanTokens_append_long (ls rest : List GoString)
    (h : ∀ l ∈ ls, utf8Len l < MaxScanTokenSize) :
    scanTokens (ls ++ longLine :: rest) = (ls.map dropCR, true) := by
  induction ls with
  | nil =>
    have := utf8Len_longLine
    simp [scanTokens, this]
  | cons l ls ih =>
    have h1 : ¬ utf8Len l ≥ MaxScanTokenSize := by
      have := h l (List.mem_cons_self _ _)
      omega
    have h2 := ih (fun x hx => h x (List.mem_cons_of_mem _ hx))
    simp [scanTokens, h1, h2]

theorem rawLines_append_lines (a b : GoString) (h : a = [] ∨ a.getLast? = some '\n') :
    rawLines (a ++ b) = rawLines a ++ rawLines b := by
  induction a with
  | nil => rfl
  | cons c cs ih =>
    have hlast : (c :: cs).getLast? = some '\n' := by
      rcases h with h | h
      · cases h
      · exact h
    by_cases hcs : cs = []
    · subst hcs
      simp at hlast
      subst hlast
      simp [rawLines]
    · have h2 : cs.getLast? = some '\n' := by
        rw [← getLast?_cons_ne c cs hcs]
        exact hlast
      have ihc := ih (Or.inr h2)
      rw [List.cons_append, rawLines, rawLines, ihc]
      by_cases hc : c = '\n'
      · simp [hc]
      · simp only [hc, if_false]
        have hne : rawLines cs ≠ [] := by
          cases cs with
          | nil => exact absurd rfl hcs
          | cons d ds =>
            rw [rawLines]
            split
            · simp
            · split <;> simp
        cases hq : rawLines cs with
        | nil => exact absurd hq hne
        | cons l ls => rfl

theorem getDevices_some (out : GoString) :
    getDevices (some out) =
      (((scanTokens (rawLines out)).1.foldl devicesLine ([], 0)).1,
        if (scanTokens (rawLines out)).2 then some Err.scan else none) := by
  unfold getDevices scanLines
  simp only
  split_ifs <;> rfl

theorem getDevices_partial_with_error :
    getDevices (some longListing) =
      ([{ Name := "erdma_0".toList, GUID := "02163efffe5030b3".toList }], some .scan) := by
  unfold longListing
  rw [getDevices_some, rawLines_append_lines _ _ (Or.inr (by decide)), rawLines_longLine_last,
    scanTokens_append_long _ _ (by decide)]
  decide

/-! ### The reference parser -/

theorem takeWhile_ne_append_sep (x y : GoString) (sep : Char) (h : sep ∉ x) :
    (x ++ sep :: y).takeWhile (fun c => c ≠ sep) = x ∧
    (x ++ sep :: y).dropWhile (fun c => c ≠ sep) = sep :: y := by
  induction x with
  | nil => simp [List.takeWhile, List.dropWhile]
  | cons c cs ih =>
    have hc : c ≠ sep := fun e => h (e ▸ List.mem_cons_self _ _)
    have := ih (fun hm => h (List.mem_cons_of_mem _ hm))
    simpa [List.takeWhile, List.dropWhile, hc] using this

theorem cutFirst_append_sep (x y : GoString) (sep : Char) (h : sep ∉ x) :
    cutFirst (x ++ sep :: y) sep = some (x, y) := by
  unfold cutFirst
  have hm : sep ∈ x ++ sep :: y := by simp
  obtain ⟨h1, h2⟩ := takeWhile_ne_append_sep x y sep h
  rw [if_pos hm, h1, h2]
  rfl

theorem cutFirst_some (line : GoString) (sep : Char) (x y : GoString)
    (h : cutFirst line sep = some (x, y)) : line = x ++ sep :: y ∧ sep ∉ x := by
  unfold cutFirst at h
  split_ifs at h with hm
  obtain ⟨a, b, hl, ha⟩ := List.eq_append_cons_of_mem hm
  obtain ⟨h1, h2⟩ := takeWhile_ne_append_sep a b sep ha
  rw [hl, h1, h2] at h
  injection h with h
  injection h with hx hy
  subst hx
  simp only [List.drop_succ_cons, List.drop_zero] at hy
  subst hy
  exact ⟨hl, ha⟩

theorem refParseUint64_eq_some_iff (s : GoString) (n : Nat) :
    refParseUint64 s = some n ↔
      s ≠ [] ∧ (∀ c ∈ s, IsDigit c) ∧ decimalValue s = n ∧ n < 2 ^ 64 := by
  unfold refParseUint64
  split_ifs with h
  · constructor
    · intro e
      injection e with e
      subst e
      exact ⟨h.1, h.2.1, rfl, h.2.2⟩
    · rintro ⟨_, _, e, _⟩
      rw [e]
  · constructor
    · intro e; cases e
    · rintro ⟨h1, h2, e, h3⟩
      exact absurd ⟨h1, h2, e ▸ h3⟩ h

theorem refLineEntry_of_KeyDigits (line key : GoString) (n : Nat) (h : KeyDigits line key n) :
    refLineEntry line = some (key, n) := by
  obtain ⟨w1, w2, w3, w4, ds, hl, h1, h2, h3, h4, hk, hkt, hne, hdig, hval, hlt⟩ := h
  have hx : ':' ∉ w1 ++ key ++ w2 := by
    intro hm
    rcases List.mem_append.mp hm with hm | hm
    · rcases List.mem_append.mp hm with hm | hm
      · exact colon_not_mem_allSpace w1 h1 hm
      · exact hk hm
    · exact colon_not_mem_allSpace w2 h2 hm
  have hns : ¬ AllSpace line := by
    intro hs
    have : ':' ∈ line := by rw [hl]; simp
    exact colon_not_mem_allSpace line hs this
  have hcut : cutFirst line ':' = some (w1 ++ key ++ w2, w3 ++ ds ++ w4) := by
    rw [hl]
    exact cutFirst_append_sep _ _ _ hx
  have hkey : TrimSpace (w1 ++ key ++ w2) = key := TrimSpace_sandwich w1 key w2 h1 h2 hkt
  have hv : TrimSpace (w3 ++ ds ++ w4) = ds :=
    TrimSpace_sandwich w3 ds w4 h3 h4 (digits_trimmed ds hdig)
  have hp : refParseUint64 ds = some n :=
    (refParseUint64_eq_some_iff ds n).mpr ⟨hne, hdig, hval, hlt⟩
  unfold refLineEntry
  rw [if_neg hns, hcut]
  simp only [hkey, hv, hp]

theorem KeyDigits_of_refLineEntry (line key : GoString) (n : Nat)
    (h : refLineEntry line = some (key, n)) : KeyDigits line key n := by
  unfold refLineEntry at h
  split_ifs at h with hs
  cases hc : cutFirst line ':' with
  | none => rw [hc] at h; cases h
  | some p =>
    obtain ⟨x, y⟩ := p
    rw [hc] at h
    simp only at h
    cases hp : refParseUint64 (TrimSpace y) with
    | none => rw [hp] at h; cases h
    | some v =>
      rw [hp] at h
      injection h with h
      injection h with hkey hval
      subst hval
      obtain ⟨hl, hx⟩ := cutFirst_some line ':' x y hc
      obtain ⟨hne, hdig, hv, hlt⟩ := (refParseUint64_eq_some_iff _ _).mp hp
      obtain ⟨a1, b1, hx1, ha1, hb1⟩ := TrimSpace_decomp x
      obtain ⟨a2, b2, hy1, ha2, hb2⟩ := TrimSpace_decomp y
      rw [hkey] at hx1
      refine ⟨a1, b1, a2, b2, TrimSpace y, ?_, ha1, hb1, ha2, hb2, ?_, ?_, hne, hdig, hv, hlt⟩
      · conv_lhs => rw [hl]
        conv_lhs => rw [hx1]
        conv_lhs => rw [hy1]
      · intro hm
        apply hx
        rw [hx1]
        simp [hm]
      · rw [← hkey]
        exact TrimSpace_trimmed x

theorem refLineEntry_eq_lineEntry (line : GoString) : refLineEntry line = lineEntry line := by
  cases h1 : refLineEntry line with
  | none =>
    cases h2 : lineEntry line with
    | none => rfl
    | some e =>
      have := refLineEntry_of_KeyDigits line e.1 e.2 (KeyDigits_of_lineEntry line e.1 e.2 h2)
      rw [h1] at this
      cases this
  | some e =>
    have := lineEntry_of_KeyDigits line e.1 e.2 (KeyDigits_of_refLineEntry line e.1 e.2 h1)
    rw [this]

theorem refStatsLine_eq_statsLine (m : Stats) (line : GoString) :
    refStatsLine m line = statsLine m line := by
  rw [statsLine_eq, ← refLineEntry_eq_lineEntry]
  rfl

theorem foldl_refStatsLine_eq (ls : List GoString) (m : Stats) :
    ls.foldl refStatsLine m = ls.foldl statsLine m := by
  induction ls generalizing m with
  | nil => rfl
  | cons l ls ih => rw [List.foldl_cons, List.foldl_cons, refStatsLine_eq_statsLine, ih]

theorem getDeviceStats_some (out : GoString) :
    getDeviceStats (some out) =
      ((scanLines out).1.foldl statsLine [], if (scanLines out).2 then some Err.scan else none) :=
  rfl

/-! ### The value of a statistics line -/

theorem lineEntry_of_fields (w1 w2 w3 w4 k d : GoString)
    (h1 : AllSpace w1) (h2 : AllSpace w2) (h3 : AllSpace w3) (h4 : AllSpace w4)
    (hk : ':' ∉ k) (hkt : Trimmed k) (hd : Trimmed d) :
    lineEntry (w1 ++ k ++ w2 ++ ':' :: (w3 ++ d ++ w4)) =
      if d ≠ [] ∧ (∀ c ∈ d, IsDigit c) ∧ decimalValue d ≤ 2 ^ 64 - 1 then
        some (k, decimalValue d)
      else none := by
  split_ifs with hc
  · apply lineEntry_of_KeyDigits
    exact ⟨w1, w2, w3, w4, d, rfl, h1, h2, h3, h4, hk, hkt, hc.1, hc.2.1, rfl, by
      have := hc.2.2
      have e : (2:Nat) ^ 64 = 18446744073709551616 := by norm_num
      omega⟩
  · cases hq : lineEntry (w1 ++ k ++ w2 ++ ':' :: (w3 ++ d ++ w4)) with
    | none => rfl
    | some e =>
      exfalso
      obtain ⟨v1, v2, v3, v4, ds, hl, g1, g2, g3, g4, gk, _, gne, gdig, gval, glt⟩ :=
        KeyDigits_of_lineEntry _ e.1 e.2 hq
      have hx : ':' ∉ v1 ++ e.1 ++ v2 := by
        intro hm
        rcases List.mem_append.mp hm with hm | hm
        · rcases List.mem_append.mp hm with hm | hm
          · exact colon_not_mem_allSpace v1 g1 hm
          · exact gk hm
        · exact colon_not_mem_allSpace v2 g2 hm
      have hy : ':' ∉ v3 ++ ds ++ v4 := by
        intro hm
        rcases List.mem_append.mp hm with hm | hm
        · rcases List.mem_append.mp hm with hm | hm
          · exact colon_not_mem_allSpace v3 g3 hm
          · exact digit_ne_colon _ (gdig _ hm) rfl
        · exact colon_not_mem_allSpace v4 g4 hm
      have := split_at_sep_unique _ _ (w1 ++ k ++ w2) (w3 ++ d ++ w4) ':' hx hy hl.symm
      have e1 : TrimSpace (w3 ++ d ++ w4) = d := TrimSpace_sandwich w3 d w4 h3 h4 hd
      have e2 : TrimSpace (v3 ++ ds ++ v4) = ds :=
        TrimSpace_sandwich v3 ds v4 g3 g4 (digits_trimmed ds gdig)
      have hds : d = ds := by rw [← e1, this.2, e2]
      apply hc
      rw [hds]
      refine ⟨gne, gdig, ?_⟩
      rw [gval]
      have e : (2:Nat) ^ 64 = 18446744073709551616 := by norm_num
      omega

/-! ### The keys of the mapping -/

theorem mem_keys_store (m : Stats) (k k2 : GoString) (v : Nat) :
    k2 ∈ (m.store k v).map Prod.fst ↔ k2 = k ∨ k2 ∈ m.map Prod.fst := by
  unfold Stats.store
  simp only [List.map_cons, List.mem_cons, List.mem_map, List.mem_filter]
  constructor
  · rintro (h | ⟨e, ⟨he, _⟩, hk⟩)
    · exact Or.inl h
    · exact Or.inr ⟨e, he, hk⟩
  · rintro (h | ⟨e, he, hk⟩)
    · exact Or.inl h
    · by_cases h2 : k2 = k
      · exact Or.inl h2
      · refine Or.inr ⟨e, ⟨he, ?_⟩, hk⟩
        rw [hk]
        simpa using h2

theorem mem_keys_statsLine (m : Stats) (t k : GoString) :
    k ∈ (statsLine m t).map Prod.fst ↔
      k ∈ m.map Prod.fst ∨ ∃ n, lineEntry t = some (k, n) := by
  rw [statsLine_eq]
  cases hq : lineEntry t with
  | none => simp
  | some e =>
    obtain ⟨ek, ev⟩ := e
    rw [mem_keys_store]
    constructor
    · rintro (h | h)
      · exact Or.inr ⟨ev, by rw [h]⟩
      · exact Or.inl h
    · rintro (h | ⟨n, hn⟩)
      · exact Or.inr h
      · injection hn with hn
        injection hn with h1 _
        exact Or.inl h1.symm

theorem mem_keys_foldl_statsLine (toks : List GoString) (m : Stats) (k : GoString) :
    k ∈ (toks.foldl statsLine m).map Prod.fst ↔
      k ∈ m.map Prod.fst ∨ ∃ t ∈ toks, ∃ n, lineEntry t = some (k, n) := by
  induction toks generalizing m with
  | nil => simp
  | cons t toks ih =>
    rw [List.foldl_cons, ih, mem_keys_statsLine]
    constructor
    · rintro ((h | ⟨n, hn⟩) | ⟨u, hu, n, hn⟩)
      · exact Or.inl h
      · exact Or.inr ⟨t, List.mem_cons_self _ _, n, hn⟩
      · exact Or.inr ⟨u, List.mem_cons_of_mem _ hu, n, hn⟩
    · rintro (h | ⟨u, hu, n, hn⟩)
      · exact Or.inl (Or.inl h)
      · rcases List.mem_cons.mp hu with rfl | hu
        · exact Or.inl (Or.inr ⟨n, hn⟩)
        · exact Or.inr ⟨u, hu, n, hn⟩

theorem mem_keys_getDeviceStats (out k : GoString) :
    k ∈ (getDeviceStats (some out)).1.map Prod.fst ↔
      ∃ line ∈ (scanLines out).1, ∃ n, KeyDigits line k n := by
  rw [getDeviceStats_some, mem_keys_foldl_statsLine]
  simp [lineEntry_iff]

theorem length_eq_ncard_of_nodup {α : Type} [DecidableEq α] (l : List α) (S : Set α)
    (hn : l.Nodup) (h : ∀ a, a ∈ l ↔ a ∈ S) : l.length = S.ncard := by
  have hS : S = ↑l.toFinset := by
    ext a
    simp [h a]
  rw [hS, Set.ncard_coe_Finset, List.toFinset_card_of_nodup hn]

theorem scanTokens_fst_mem (ls : List GoString) :
    ∀ t ∈ (scanTokens ls).1, ∃ l ∈ ls, t = dropCR l := by
  induction ls with
  | nil => simp [scanTokens]
  | cons l ls ih =>
    intro t ht
    unfold scanTokens at ht
    split_ifs at ht
    · cases ht
    · rcases List.mem_cons.mp ht with rfl | ht
      · exact ⟨l, List.mem_cons_self _ _, rfl⟩
      · obtain ⟨x, hx, hxe⟩ := ih t ht
        exact ⟨x, List.mem_cons_of_mem _ hx, hxe⟩

theorem rawLines_no_newline (s : GoString) : ∀ l ∈ rawLines s, '\n' ∉ l := by
  induction s with
  | nil => simp [rawLines]
  | cons c cs ih =>
    intro l hl
    rw [rawLines] at hl
    split_ifs at hl with hc
    · rcases List.mem_cons.mp hl with rfl | hl
      · simp
      · exact ih l hl
    · cases hq : rawLines cs with
      | nil =>
        rw [hq] at hl
        simp only [List.mem_singleton] at hl
        subst hl
        simpa using Ne.symm hc
      | cons x xs =>
        rw [hq] at hl ih
        rcases List.mem_cons.mp hl with rfl | hl
        · intro hm
          rcases List.mem_cons.mp hm with h | h
          · exact hc h.symm
          · exact ih x (List.mem_cons_self _ _) h
        · exact ih l (List.mem_cons_of_mem _ hl)

theorem dropCR_subset (l : GoString) : ∀ c ∈ dropCR l, c ∈ l := by
  intro c hc
  unfold dropCR at hc
  split_ifs at hc
  · exact List.mem_of_mem_dropLast hc
  · exact hc

theorem scanLines_no_newline (out : GoString) : ∀ t ∈ (scanLines out).1, '\n' ∉ t := by
  intro t ht hm
  obtain ⟨l, hl, rfl⟩ := scanTokens_fst_mem _ t ht
  exact rawLines_no_newline out l hl (dropCR_subset l _ hm)

theorem KeyDigits_key_subset (line k : GoString) (n : Nat) (h : KeyDigits line k n) :
    ∀ c ∈ k, c ∈ line := by
  obtain ⟨w1, w2, w3, w4, ds, hl, _⟩ := h
  intro c hc
  rw [hl]
  simp [hc]

theorem trimmed_allSpace_eq_nil (k : GoString) (ht : Trimmed k) (hs : AllSpace k) : k = [] := by
  cases k with
  | nil => rfl
  | cons c cs =>
    have h1 := ht.1 c rfl
    have h2 := hs c (List.mem_cons_self _ _)
    rw [h1] at h2
    cases h2

theorem KeyDigits_blank_left (line k : GoString) (n : Nat) (w rest : GoString)
    (h : KeyDigits line k n) (hl : line = w ++ ':' :: rest) (hw : AllSpace w) : k = [] := by
  obtain ⟨w1, w2, w3, w4, ds, hl2, h1, h2, h3, h4, hk, hkt, _, hdig, _, _⟩ := h
  have hx : ':' ∉ w1 ++ k ++ w2 := by
    intro hm
    rcases List.mem_append.mp hm with hm | hm
    · rcases List.mem_append.mp hm with hm | hm
      · exact colon_not_mem_allSpace w1 h1 hm
      · exact hk hm
    · exact colon_not_mem_allSpace w2 h2 hm
  have hy : ':' ∉ w3 ++ ds ++ w4 := by
    intro hm
    rcases List.mem_append.mp hm with hm | hm
    · rcases List.mem_append.mp hm with hm | hm
      · exact colon_not_mem_allSpace w3 h3 hm
      · exact digit_ne_colon _ (hdig _ hm) rfl
    · exact colon_not_mem_allSpace w4 h4 hm
  have := split_at_sep_unique _ _ w rest ':' hx hy (hl2 ▸ hl)
  apply trimmed_allSpace_eq_nil k hkt
  intro c hc
  apply hw
  rw [this.1]
  simp [hc]

theorem lookup_getDeviceStats (out k : GoString) (n : Nat) :
    List.lookup k (getDeviceStats (some out)).1 = some n ↔
      ∃ l1 line l2, (scanLines out).1 = l1 ++ line :: l2 ∧ KeyDigits line k n ∧
        ∀ u ∈ l2, ∀ n2, ¬ KeyDigits u k n2 := by
  rw [getDeviceStats_some, lookup_foldl_statsLine]
  simp [List.lookup, lineEntry_iff]

theorem keys_nodup_getDeviceStats (run : CmdResult) :
    ((getDeviceStats run).1.map Prod.fst).Nodup := by
  cases run with
  | none => simp [getDeviceStats]
  | some out =>
    rw [getDeviceStats_some]
    exact foldl_statsLine_keys_nodup _ _ (by simp)

theorem scanLines_of_fit (out : GoString)
    (h : ∀ l ∈ rawLines out, utf8Len l < MaxScanTokenSize) :
    scanLines out = ((rawLines out).map dropCR, false) := by
  unfold scanLines
  exact scanTokens_of_fit _ h

/-! ### The table of descriptors -/

theorem emitCalls_length (c : ErdmaCollector) : (emitCalls c).length = 55 := rfl

theorem Describe_eq (c : ErdmaCollector) :
    Describe c = c.versionDesc :: c.deviceGUIDDesc :: (emitCalls c).map Prod.fst := rfl

theorem emitCalls_keys_nodup (c : ErdmaCollector) : ((emitCalls c).map Prod.snd).Nodup := by
  have e : (emitCalls c).map Prod.snd = (emitCalls NewErdmaCollector).map Prod.snd := rfl
  rw [e]
  decide

theorem Describe_names_nodup : ((Describe NewErdmaCollector).map Desc.fqName).Nodup := by
  decide

theorem Describe_nodup : (Describe NewErdmaCollector).Nodup :=
  List.Nodup.of_map _ Describe_names_nodup

theorem emitCalls_descs_nodup : ((emitCalls NewErdmaCollector).map Prod.fst).Nodup := by
  have h := Describe_nodup
  rw [Describe_eq] at h
  exact (List.nodup_cons.mp (List.nodup_cons.mp h).2).2

theorem emitCalls_names_nodup :
    ((emitCalls NewErdmaCollector).map (fun p => p.1.fqName)).Nodup := by
  have h := Describe_names_nodup
  rw [Describe_eq, List.map_cons, List.map_cons, List.map_map] at h
  exact (List.nodup_cons.mp (List.nodup_cons.mp h).2).2

theorem map_filterMap_sublist {α β γ : Type} (f : α → Option β) (g : β → γ) (h : α → γ)
    (l : List α) (hfg : ∀ a b, f a = some b → g b = h a) :
    ((l.filterMap f).map g).Sublist (l.map h) := by
  induction l with
  | nil => exact List.Sublist.slnil
  | cons a l ih =>
    rw [List.filterMap_cons, List.map_cons]
    cases hq : f a with
    | none => exact List.Sublist.cons _ ih
    | some b =>
      simp only [List.map_cons]
      rw [hfg a b hq]
      exact List.Sublist.cons₂ _ ih

theorem counterSample_desc (device nodeName : GoString) (stats : Stats) (p : Desc × GoString)
    (s : Sample) (h : counterSample device nodeName stats p = some s) : s.desc = p.1 := by
  unfold counterSample at h
  cases hq : List.lookup p.2 stats with
  | none => rw [hq] at h; cases h
  | some v =>
    rw [hq] at h
    injection h with h
    rw [← h]
    rfl

theorem emitStats_names_sublist (c : ErdmaCollector) (device nodeName : GoString)
    (stats : Stats) :
    ((emitStats c device nodeName stats).map (fun s => s.desc.fqName)).Sublist
      ((emitCalls c).map (fun p => p.1.fqName)) := by
  rw [emitStats_eq_filterMap]
  apply map_filterMap_sublist
  intro p s h
  rw [counterSample_desc device nodeName stats p s h]

theorem emitStats_samples_nodup (device nodeName : GoString) (stats : Stats) :
    ((emitStats NewErdmaCollector device nodeName stats).map
      (fun s => (s.desc.fqName, s.labelValues))).Nodup := by
  apply List.Nodup.of_map Prod.fst
  rw [List.map_map]
  exact emitCalls_names_nodup.sublist (emitStats_names_sublist _ device nodeName stats)

theorem emitStats_desc_mem (c : ErdmaCollector) (device nodeName : GoString) (stats : Stats) :
    ∀ s ∈ emitStats c device nodeName stats, s.desc ∈ (emitCalls c).map Prod.fst := by
  intro s hs
  rw [emitStats_eq_filterMap] at hs
  obtain ⟨p, hp, hps⟩ := List.mem_filterMap.mp hs
  rw [counterSample_desc device nodeName stats p s hps]
  exact List.mem_map_of_mem _ hp

theorem deviceBlock_desc_mem (c : ErdmaCollector) (env : Env) (p : Nat × Device) :
    ∀ s ∈ deviceBlock c env p, s.desc ∈ Describe c := by
  intro s hs
  rw [Describe_eq]
  unfold deviceBlock at hs
  rcases List.mem_cons.mp hs with rfl | hs
  · exact List.mem_cons_of_mem _ (List.mem_cons_self _ _)
  · split_ifs at hs
    · exact List.mem_cons_of_mem _ (List.mem_cons_of_mem _ (emitStats_desc_mem c _ _ _ s hs))
    · cases hs

theorem Collect_desc_mem (c : ErdmaCollector) (env : Env) :
    ∀ s ∈ Collect c env, s.desc ∈ Describe c := by
  intro s hs
  by_cases h : env.getDevices.2 = none
  · have hd : env.getDevices = (env.getDevices.1, none) := by rw [← h]
    rw [Collect_of_devices c env _ hd] at hs
    rcases List.mem_append.mp hs with hs | hs
    · rw [versionSamples_desc c env s hs, Describe_eq]
      exact List.mem_cons_self _ _
    · obtain ⟨p, _, hps⟩ := List.mem_flatMap.mp hs
      exact deviceBlock_desc_mem c env p s hps
  · rw [Collect_of_devices_error c env h] at hs
    rw [versionSamples_desc c env s hs, Describe_eq]
    exact List.mem_cons_self _ _

theorem Describe_desc_emitted (c : ErdmaCollector) :
    ∀ d ∈ Describe c, ∃ env : Env, ∃ s ∈ Collect c env, s.desc = d := by
  intro d hd
  rw [Describe_eq] at hd
  rcases List.mem_cons.mp hd with rfl | hd
  · refine ⟨{ getNodeName := [], getVersion := ([], none), getDevices := ([], none),
              getDeviceStats := fun _ _ => ([], none) }, ?_⟩
    refine ⟨MustNewConstMetric c.versionDesc .GaugeValue 1 [[], []], ?_, rfl⟩
    simp [Collect, versionSamples]
  · rcases List.mem_cons.mp hd with rfl | hd
    · refine ⟨{ getNodeName := [], getVersion := ([], none),
                getDevices := ([{ Name := [], GUID := [] }], none),
                getDeviceStats := fun _ _ => ([], some .exec) }, ?_⟩
      refine ⟨MustNewConstMetric c.deviceGUIDDesc .GaugeValue 1 [[], [], []], ?_, rfl⟩
      simp [Collect, collectDevices, deviceInfo]
    · obtain ⟨p, hp, rfl⟩ := List.mem_map.mp hd
      refine ⟨{ getNodeName := [], getVersion := ([], none),
                getDevices := ([{ Name := [], GUID := [] }], none),
                getDeviceStats := fun _ _ => ([(p.2, 0)], none) }, ?_⟩
      refine ⟨MustNewConstMetric p.1 .CounterValue (float64OfUint64 0) [[], []], ?_, rfl⟩
      have hmem : MustNewConstMetric p.1 .CounterValue (float64OfUint64 0) [[], []] ∈
          emitStats c [] [] [(p.2, 0)] := by
        rw [emitStats_eq_filterMap]
        apply List.mem_filterMap.mpr
        refine ⟨p, hp, ?_⟩
        unfold counterSample
        simp [List.lookup]
      simp only [Collect, collectDevices, deviceCounters]
      simp [hmem]

/-! ## The claims of the specification -/

/-- C1 (amended): for every statistics output whose lines all fit the scanner's
buffer, `getDeviceStats` returns no error and a mapping with distinct keys in
which the value at a key `k` is `n` exactly when the last line of the form
`key : digits` with key `k` has digits denoting `n`; a key with no such line has
no entry, so that the lines of any other form contribute nothing. -/
theorem getDeviceStats_lookup_last (out : GoString)
    (hfit : ∀ l ∈ rawLines out, utf8Len l < MaxScanTokenSize) :
    (getDeviceStats (some out)).2 = none ∧
    ((getDeviceStats (some out)).1.map Prod.fst).Nodup ∧
    ∀ k n, List.lookup k (getDeviceStats (some out)).1 = some n ↔
      ∃ l1 line l2, rawLines out = l1 ++ line :: l2 ∧ KeyDigits line k n ∧
        ∀ u ∈ l2, ∀ n2, ¬ KeyDigits u k n2 := by
  rw [getDeviceStats_of_fit out hfit]
  refine ⟨rfl, foldl_statsLine_keys_nodup _ _ (by simp), ?_⟩
  intro k n
  rw [lookup_foldl_statsLine]
  simp [List.lookup, lineEntry_iff]

/-- The example of the specification for C1: the line `listen_create_cnt : 0`
gives the entry `listen_create_cnt -> 0` and the line `garbage line` gives none. -/
theorem getDeviceStats_lookup_last_witness :
    (∀ l ∈ rawLines "listen_create_cnt : 0\ngarbage line\n".toList,
      utf8Len l < MaxScanTokenSize) ∧
    (getDeviceStats (some "listen_create_cnt : 0\ngarbage line\n".toList)).2 = none ∧
    List.lookup "listen_create_cnt".toList
      (getDeviceStats (some "listen_create_cnt : 0\ngarbage line\n".toList)).1 = some 0 ∧
    (getDeviceStats (some "listen_create_cnt : 0\ngarbage line\n".toList)).1.length = 1 :=
  ⟨by decide,
   (getDeviceStats_lookup_last "listen_create_cnt : 0\ngarbage line\n".toList (by decide)).1,
   by decide, by decide⟩

/-- C1 as stated fails: it is not true that every line of the form `key : digits`
gives an entry with that key and that value in the returned mapping; in the
output `a : 1`, `a : 2` the first line gives none, the key `a` being mapped to 2. -/
theorem getDeviceStats_duplicate_key :
    ¬ (∀ out : GoString, (∀ l ∈ rawLines out, utf8Len l < MaxScanTokenSize) →
        ∀ line ∈ rawLines out, ∀ k n, KeyDigits line k n →
          List.lookup k (getDeviceStats (some out)).1 = some n) := by
  intro h
  have hk : KeyDigits "a : 1".toList "a".toList 1 :=
    ⟨[], [' '], [' '], [], ['1'], by decide, by decide, by decide, by decide, by decide,
      by decide, by decide, by decide, by decide, by decide, by decide⟩
  have := h "a : 1\na : 2\n".toList (by decide) "a : 1".toList (by decide) "a".toList 1 hk
  exact absurd this (by decide)

/-- C2: for every output of the listing command whose lines all fit the
scanner's buffer, `getDevices` returns no error and, in order, one device (token
0 as name, token 1 as GUID) for each line after the first two that has at least
two white-space separated tokens; the number of devices is the number of such
lines, and the first two lines, the blank lines and the lines of one token give
no device. -/
theorem getDevices_lines_after_header (out : GoString)
    (hfit : ∀ l ∈ rawLines out, utf8Len l < MaxScanTokenSize) :
    getDevices (some out) = (((rawLines out).drop 2).filterMap deviceOfLine, none) ∧
    (getDevices (some out)).1.length =
      ((rawLines out).drop 2).countP (fun l => 2 ≤ (Fields l).length) := by
  rw [getDevices_of_fit out hfit]
  exact ⟨rfl, length_filterMap_deviceOfLine _⟩

/-- The example of the specification for C2: after a header of two lines, the
line `erdma_0             02163efffe5030b3` gives the one device of that name and
GUID. -/
theorem getDevices_lines_after_header_witness :
    (∀ l ∈ rawLines
        "    device\tnode GUID\n    ------\t---------\nerdma_0             02163efffe5030b3\n".toList,
      utf8Len l < MaxScanTokenSize) ∧
    getDevices (some
        "    device\tnode GUID\n    ------\t---------\nerdma_0             02163efffe5030b3\n".toList)
      = ([{ Name := "erdma_0".toList, GUID := "02163efffe5030b3".toList }], none) :=
  ⟨by decide,
   ((getDevices_lines_after_header
      "    device\tnode GUID\n    ------\t---------\nerdma_0             02163efffe5030b3\n".toList
      (by decide)).1).trans (by decide)⟩

/-- C3 as stated fails: the sample of a present key does not always carry the
value of the snapshot; for `listen_create_cnt -> 2 ^ 53 + 1` the sample carries
`float64(2 ^ 53 + 1)`, which is `2 ^ 53`. -/
theorem emitStats_rounds_large_value :
    ¬ (∀ (c : ErdmaCollector) (device nodeName : GoString) (stats : Stats)
        (desc : Desc) (key : GoString) (v : Nat),
        (desc, key) ∈ emitCalls c → List.lookup key stats = some v →
        MustNewConstMetric desc .CounterValue v [device, nodeName] ∈
          emitStats c device nodeName stats) := by
  intro h
  have := h NewErdmaCollector "erdma_0".toList "node".toList
    [("listen_create_cnt".toList, 2 ^ 53 + 1)]
    NewErdmaCollector.listenCreateCntDesc "listen_create_cnt".toList (2 ^ 53 + 1)
    (by decide) (by decide)
  exact absurd this (by decide)

/-- C3 (amended): `emitStats` sends, for each pair (descriptor, key) of its
table in order, one counter sample when the key is in the snapshot, with the
descriptor of the pair, the value of the snapshot converted to `float64` and the
labels (device, node), and nothing when the key is absent; the number of samples
is the number of pairs whose key is present; the keys of the snapshot outside
the table change nothing; the conversion is exact up to `2 ^ 53`. -/
theorem emitStats_table (c : ErdmaCollector) (device nodeName : GoString) (stats : Stats) :
    emitStats c device nodeName stats =
      (emitCalls c).filterMap (counterSample device nodeName stats) ∧
    (emitStats c device nodeName stats).length =
      (emitCalls c).countP (fun p => (List.lookup p.2 stats).isSome) ∧
    (∀ stats2 : Stats, (∀ p ∈ emitCalls c, List.lookup p.2 stats2 = List.lookup p.2 stats) →
      emitStats c device nodeName stats2 = emitStats c device nodeName stats) ∧
    (∀ v, v ≤ 2 ^ 53 → float64OfUint64 v = v) := by
  refine ⟨emitStats_eq_filterMap c device nodeName stats, ?_, ?_, float64OfUint64_exact⟩
  · rw [emitStats_eq_filterMap]
    exact length_filterMap_counterSample device nodeName stats _
  · intro stats2 h
    rw [emitStats_eq_filterMap, emitStats_eq_filterMap]
    exact filterMap_counterSample_congr device nodeName stats stats2 _ h

/-- C4: when the enumeration succeeds with the devices `devs`, `Collect` sends
the version sample (if any) and then, for each device, its identity sample
followed by the counter samples `emitStats` gives for its snapshot when the
fetch of its statistics succeeded, and by nothing when it failed; when the fetch
fails for the device at position `k` only, every device has its identity sample
and every device but that one has the counter samples of its snapshot. -/
theorem Collect_fault_isolation (c : ErdmaCollector) (env : Env) (devs : List Device)
    (h : env.getDevices = (devs, none)) :
    Collect c env = versionSamples c env ++ devs.enum.flatMap (deviceBlock c env) ∧
    ∀ (pre : List Device) (dk : Device) (post : List Device),
      devs = pre ++ dk :: post →
      (env.getDeviceStats pre.length dk.Name).2 ≠ none →
      (∀ i name, i ≠ pre.length → (env.getDeviceStats i name).2 = none) →
      Collect c env = versionSamples c env ++
        (pre.enum.flatMap (fullBlock c env) ++
          deviceInfo c env.getNodeName dk ::
            (post.enumFrom (pre.length + 1)).flatMap (fullBlock c env)) := by
  refine ⟨Collect_of_devices c env devs h, ?_⟩
  intro pre dk post hd hk hother
  rw [Collect_of_devices c env devs h, hd, List.enum, List.enumFrom_append,
    List.flatMap_append, List.enumFrom_cons, List.flatMap_cons]
  have e1 : (List.enumFrom 0 pre).flatMap (deviceBlock c env) =
      pre.enum.flatMap (fullBlock c env) := by
    apply flatMap_enumFrom_congr
    intro i d _ hi
    unfold deviceBlock fullBlock
    simp [hother i d.Name (by omega)]
  have e2 : (List.enumFrom (0 + pre.length + 1) post).flatMap (deviceBlock c env) =
      (post.enumFrom (pre.length + 1)).flatMap (fullBlock c env) := by
    rw [Nat.zero_add]
    apply flatMap_enumFrom_congr
    intro i d hi _
    unfold deviceBlock fullBlock
    simp [hother i d.Name (by omega)]
  have e3 : deviceBlock c env (0 + pre.length, dk) = [deviceInfo c env.getNodeName dk] := by
    unfold deviceBlock
    rw [Nat.zero_add]
    simp [hk]
  rw [e1, e2, e3]
  rfl

/-- An instance of C4: two devices, the statistics of the second one failing;
both have their identity sample and the first one alone has a counter sample. -/
theorem Collect_fault_isolation_witness :
    exampleEnv.getDevices =
      ([{ Name := "erdma_0".toList, GUID := "02163efffe5030b3".toList },
        { Name := "erdma_1".toList, GUID := "02163efffe5030b4".toList }], none) ∧
    Collect NewErdmaCollector exampleEnv =
      [MustNewConstMetric NewErdmaCollector.versionDesc .GaugeValue 1
        ["0.2.38".toList, "node-1".toList],
       MustNewConstMetric NewErdmaCollector.deviceGUIDDesc .GaugeValue 1
        ["erdma_0".toList, "02163efffe5030b3".toList, "node-1".toList],
       MustNewConstMetric NewErdmaCollector.listenCreateCntDesc .CounterValue 3
        ["erdma_0".toList, "node-1".toList],
       MustNewConstMetric NewErdmaCollector.deviceGUIDDesc .GaugeValue 1
        ["erdma_1".toList, "02163efffe5030b4".toList, "node-1".toList]] :=
  ⟨rfl, (Collect_fault_isolation NewErdmaCollector exampleEnv _ rfl).1.trans (by decide)⟩

/-- C5: when `getDevices` returns an error, with or without a partial list,
`Collect` sends the version sample when the probe succeeded and nothing else:
no identity sample and no counter sample. -/
theorem Collect_enumeration_failed (c : ErdmaCollector) (env : Env)
    (h : env.getDevices.2 ≠ none) :
    Collect c env =
      (if env.getVersion.2 = none then
        [MustNewConstMetric c.versionDesc .GaugeValue 1 [env.getVersion.1, env.getNodeName]]
      else []) ∧
    (Collect c env).length ≤ 1 ∧
    ∀ s ∈ Collect c env, s.desc = c.versionDesc := by
  rw [Collect_of_devices_error c env h]
  refine ⟨rfl, ?_, versionSamples_desc c env⟩
  unfold versionSamples
  split_ifs <;> simp

/-- An instance of C5: the listing has a line too long for the scanner after the
line of a device, so that `getDevices` returns that device and an error; the
version sample is all that is sent. -/
theorem Collect_enumeration_failed_witness :
    exampleWorldLongLine.env.getDevices =
      ([{ Name := "erdma_0".toList, GUID := "02163efffe5030b3".toList }], some .scan) ∧
    Collect NewErdmaCollector exampleWorldLongLine.env =
      [MustNewConstMetric NewErdmaCollector.versionDesc .GaugeValue 1
        ["0.2.38".toList, "node-1".toList]] :=
  ⟨getDevices_partial_with_error,
   (Collect_enumeration_failed NewErdmaCollector exampleWorldLongLine.env
      (by
        have h : exampleWorldLongLine.env.getDevices.2 = some Err.scan :=
          congrArg Prod.snd getDevices_partial_with_error
        rw [h]
        exact Option.some_ne_none _)).1.trans (by decide)⟩

/-- C8: the samples `Collect` sends when the version probe succeeds are the
version sample followed by exactly the samples it sends when the probe fails,
whatever the enumeration and the statistics return. -/
theorem Collect_version_failure_local (c : ErdmaCollector) (env : Env)
    (version ignored : GoString) (e : Err) :
    Collect c { env with getVersion := (version, none) } =
      MustNewConstMetric c.versionDesc .GaugeValue 1 [version, env.getNodeName] ::
        Collect c { env with getVersion := (ignored, some e) } := by
  unfold Collect versionSamples
  by_cases h : env.getDevices.2 = none
  · simp only [h, ne_eq, not_true_eq_false, if_false, if_true]
    simp only [reduceCtorEq, if_false, List.nil_append, List.singleton_append, List.cons.injEq,
      true_and]
    rw [collectDevices_eq c { env with getVersion := (version, none) },
      collectDevices_eq c { env with getVersion := (ignored, some e) }]
    rfl
  · simp [h]

/-- C9: `Collect` sends the version sample (gauge 1, labels version and node)
when the probe succeeded, then for each device in the order of the enumeration
its identity sample (gauge 1, labels name, GUID and node) immediately followed
by its counter samples, which carry the name of that device; a device that is
enumerated several times has its identity sample sent as many times. -/
theorem Collect_shape (c : ErdmaCollector) (env : Env) :
    Collect c env =
      versionSamples c env ++
        (if env.getDevices.2 = none then
          env.getDevices.1.enum.flatMap
            (fun p => deviceInfo c env.getNodeName p.2 ::
              deviceCounters c env env.getNodeName p.1 p.2)
        else []) ∧
    versionSamples c env =
      (if env.getVersion.2 = none then
        [{ desc := c.versionDesc, valueType := .GaugeValue, value := 1,
           labelValues := [env.getVersion.1, env.getNodeName] }]
      else []) ∧
    (∀ d : Device, deviceInfo c env.getNodeName d =
      { desc := c.deviceGUIDDesc, valueType := .GaugeValue, value := 1,
        labelValues := [d.Name, d.GUID, env.getNodeName] }) ∧
    (∀ (i : Nat) (d : Device), ∀ s ∈ deviceCounters c env env.getNodeName i d,
      s.valueType = .CounterValue ∧ s.labelValues = [d.Name, env.getNodeName]) ∧
    (env.getDevices.2 = none → ∀ d : Device,
      env.getDevices.1.count d ≤ (Collect c env).count (deviceInfo c env.getNodeName d)) := by
  refine ⟨?_, rfl, fun _ => rfl, deviceCounters_sample c env, ?_⟩
  · by_cases h : env.getDevices.2 = none
    · have hd : env.getDevices = (env.getDevices.1, none) := by rw [← h]
      rw [Collect_of_devices c env _ hd]
      simp only [h, if_true]
      congr 2
      funext p
      exact (deviceBlock_eq c env p.1 p.2).symm
    · rw [Collect_of_devices_error c env h]
      simp [h]
  · intro h d
    have hd : env.getDevices = (env.getDevices.1, none) := by rw [← h]
    rw [Collect_of_devices c env _ hd, List.count_append]
    have := count_le_count_flatMap c env d env.getDevices.1 0
    unfold List.enum
    omega

/-- C6: when the output holds the label `Query kernel driver version:` followed
by white space (one character or more of the class `\s` of the pattern) and by
a token of other characters, `getVersion` returns no error; and it returns that
token when the occurrence is the leftmost one and the token runs up to the next
white space or the end of the output. -/
theorem getVersion_leftmost_token (out pre ws tok rest : GoString)
    (hocc : VersionOccurrence out pre ws tok rest) :
    (getVersion (some out)).2 = none ∧
    ((∀ c ∈ rest.head?, reSpace c = true) →
      (∀ pre2 ws2 tok2 rest2, VersionOccurrence out pre2 ws2 tok2 rest2 →
        pre.length ≤ pre2.length) →
      getVersion (some out) = (tok, none)) := by
  constructor
  · by_contra h
    exact (findFrom_versionRe_none_iff out).mp ((getVersion_error_iff out).mp h)
      ⟨pre, ws, tok, rest, hocc⟩
  · intro hmax hleft
    obtain ⟨he, hws, hsp, htok, hns⟩ := hocc
    have hrest : rest.takeWhile (fun c => !reSpace c) = [] := by
      cases rest with
      | nil => rfl
      | cons c cs =>
        have := hmax c rfl
        simp [List.takeWhile, this]
    have hm : matchHere versionRe (versionLabel ++ ws ++ tok ++ rest) =
        some (versionLabel ++ ws ++ tok, some tok) := by
      rw [matchHere_versionRe, versionHere_of_occurrence ws tok rest hws hsp htok hns, hrest]
      simp
    have hout : out = pre ++ (versionLabel ++ ws ++ tok ++ rest) := by
      rw [he]; simp [List.append_assoc]
    apply getVersion_of_find out (versionLabel ++ ws ++ tok) tok
    rw [hout]
    apply findFrom_of_leftmost _ _ _ _ hm
    intro p2 t2 he2 hlt
    rw [matchHere_versionRe]
    cases hq : versionHere t2 with
    | none => rfl
    | some r =>
      exfalso
      obtain ⟨ws2, tok2, rest2, ht, hws2, hsp2, htok2, hns2, _, _⟩ :=
        occurrence_of_versionHere t2 r hq
      have := hleft p2 ws2 tok2 rest2
        ⟨by rw [hout, he2, ht]; simp [List.append_assoc], hws2, hsp2, htok2, hns2⟩
      omega

/-- The example of the specification for C6: `Query kernel driver version: 0.2.38`
gives the version `0.2.38`. -/
theorem getVersion_leftmost_token_witness :
    VersionOccurrence "Query kernel driver version: 0.2.38\n".toList [] [' ']
      "0.2.38".toList ['\n'] ∧
    getVersion (some "Query kernel driver version: 0.2.38\n".toList) =
      ("0.2.38".toList, none) :=
  ⟨⟨by decide, by decide, by decide, by decide, by decide⟩,
   (getVersion_leftmost_token "Query kernel driver version: 0.2.38\n".toList [] [' ']
      "0.2.38".toList ['\n']
      ⟨by decide, by decide, by decide, by decide, by decide⟩).2
      (by decide) (fun _ _ _ _ _ => Nat.zero_le _)⟩

/-- C7: `getVersion` fails on an output exactly when the output holds no
occurrence of the label followed by white space (class `\s`) and by a character
that is not white space; a failure returns the empty string; the empty output,
a token that follows the colon directly and white space alone after the colon
are failures. -/
theorem getVersion_fails_iff (out : GoString) :
    ((getVersion (some out)).2 ≠ none ↔
      ¬ ∃ pre ws tok rest, VersionOccurrence out pre ws tok rest) ∧
    (∀ run : CmdResult, (getVersion run).2 ≠ none → (getVersion run).1 = []) ∧
    getVersion (some []) = ([], some .parse) ∧
    (∀ tok : GoString, (∀ c ∈ tok, reSpace c = false) →
      getVersion (some (versionLabel ++ tok)) = ([], some .parse)) ∧
    (∀ ws : GoString, (∀ c ∈ ws, reSpace c = true) →
      getVersion (some (versionLabel ++ ws)) = ([], some .parse)) := by
  refine ⟨?_, ?_, ?_, ?_, ?_⟩
  · rw [getVersion_error_iff, findFrom_versionRe_none_iff]
  · intro run h
    cases run with
    | none => rfl
    | some o =>
      rw [getVersion_of_none o ((getVersion_error_iff o).mp h)]
  · exact getVersion_of_none _ ((findFrom_versionRe_none_iff _).mpr no_occurrence_nil)
  · intro tok h
    exact getVersion_of_none _
      ((findFrom_versionRe_none_iff _).mpr (no_occurrence_label_token tok h))
  · intro ws h
    exact getVersion_of_none _
      ((findFrom_versionRe_none_iff _).mpr (no_occurrence_label_spaces ws h))

/-- C10 (amended): inserting between the lines of a statistics output one
malformed line that fits the scanner's buffer changes neither the mapping nor
the error that `getDeviceStats` returns. -/
theorem getDeviceStats_malformed_line_local (out out2 : GoString) (l1 l2 : List GoString)
    (bad : GoString) (h1 : rawLines out = l1 ++ l2) (h2 : rawLines out2 = l1 ++ bad :: l2)
    (hbad : Malformed bad) (hfit : utf8Len bad < MaxScanTokenSize) :
    getDeviceStats (some out2) = getDeviceStats (some out) :=
  getDeviceStats_insert_malformed out out2 l1 l2 bad h1 h2 hbad hfit

/-- An instance of C10: the line `garbage line` between two valid lines. -/
theorem getDeviceStats_malformed_line_local_witness :
    Malformed "garbage line".toList ∧
    getDeviceStats (some "a : 1\ngarbage line\nb : 2\n".toList) =
      getDeviceStats (some "a : 1\nb : 2\n".toList) :=
  ⟨Or.inl (by decide),
   getDeviceStats_malformed_line_local "a : 1\nb : 2\n".toList
     "a : 1\ngarbage line\nb : 2\n".toList ["a : 1".toList] ["b : 2".toList]
     "garbage line".toList (by decide) (by decide) (Or.inl (by decide)) (by decide)⟩

/-- C10 as stated fails: a malformed line of `MaxScanTokenSize` bytes put before
the line `a : 1` makes the scanner stop, so that `getDeviceStats` returns the
empty mapping and an error. -/
theorem getDeviceStats_long_line_aborts :
    ¬ (∀ (out out2 : GoString) (l1 l2 : List GoString) (bad : GoString),
        rawLines out = l1 ++ l2 → rawLines out2 = l1 ++ bad :: l2 → Malformed bad →
        getDeviceStats (some out2) = getDeviceStats (some out)) := by
  intro h
  have := h "a : 1\n".toList (longLine ++ '\n' :: "a : 1\n".toList) [] ["a : 1".toList]
    longLine (by decide) (by
      rw [rawLines_longLine, show rawLines "a : 1\n".toList = ["a : 1".toList] by decide]
      rfl) malformed_longLine
  rw [getDeviceStats_longLine] at this
  exact absurd this (by decide)


/-- C11: for every statistics output, the mapping `getDeviceStats` returns is
the mapping of the reference parser, which cuts each non-blank line at its first
`':'` into a left part and the whole remainder, skips the lines with no `':'`,
trims both parts and keeps the entry when the remainder reads as an unsigned
decimal integer of 64 bits; the lines are those the scanner delivers, which are
all the lines of the output when each of them fits the scanner's buffer. -/
theorem getDeviceStats_refines_reference (out : GoString) :
    (getDeviceStats (some out)).1 = refGetDeviceStats out ∧
    ((∀ l ∈ rawLines out, utf8Len l < MaxScanTokenSize) →
      (getDeviceStats (some out)).1 = refStatsOfLines out) := by
  constructor
  · rw [getDeviceStats_some]
    unfold refGetDeviceStats
    rw [foldl_refStatsLine_eq]
  · intro hfit
    rw [getDeviceStats_of_fit out hfit]
    unfold refStatsOfLines
    rw [foldl_refStatsLine_eq]

/-- C12: `getNodeName` is total and decides in a fixed order: the value of
`NODE_NAME` when it is set and not empty, otherwise the hostname when
`os.Hostname` returns no error, otherwise `unknown`; a variable set to the empty
string is treated as one that is not set. -/
theorem getNodeName_order (nodeNameVar : Option GoString) (host : GoString × Option Err) :
    (∀ s, nodeNameVar = some s → s ≠ [] → getNodeName nodeNameVar host = s) ∧
    ((nodeNameVar = none ∨ nodeNameVar = some []) → host.2 = none →
      getNodeName nodeNameVar host = host.1) ∧
    ((nodeNameVar = none ∨ nodeNameVar = some []) → host.2 ≠ none →
      getNodeName nodeNameVar host = "unknown".toList) ∧
    getNodeName (some []) host = getNodeName none host := by
  refine ⟨?_, ?_, ?_, rfl⟩
  · intro s hs hne
    subst hs
    simp [getNodeName, hne]
  · intro hv hh
    rcases hv with hv | hv <;> subst hv <;> simp [getNodeName, hh]
  · intro hv hh
    rcases hv with hv | hv <;> subst hv <;> simp [getNodeName, hh]

/-- C13: on a line with the fields `k` and `d` around its colon (white space
apart), the loop of `getDeviceStats` stores `k -> n` exactly when `d` is a
non-empty string of decimal digits that denotes `n` and `n` is at most
`2 ^ 64 - 1`, with no wrap-around; it stores nothing when `d` denotes a larger
number, is empty or holds a character that is not a decimal digit. -/
theorem statsLine_value_exact (m : Stats) (w1 w2 w3 w4 k d : GoString)
    (h1 : AllSpace w1) (h2 : AllSpace w2) (h3 : AllSpace w3) (h4 : AllSpace w4)
    (hk : ':' ∉ k) (hkt : Trimmed k) (hd : Trimmed d) :
    statsLine m (w1 ++ k ++ w2 ++ ':' :: (w3 ++ d ++ w4)) =
      if d ≠ [] ∧ (∀ c ∈ d, IsDigit c) ∧ decimalValue d ≤ 2 ^ 64 - 1 then
        m.store k (decimalValue d)
      else m := by
  rw [statsLine_eq, lineEntry_of_fields w1 w2 w3 w4 k d h1 h2 h3 h4 hk hkt hd]
  split_ifs <;> rfl

/-- The examples of C13: `007` gives 7 and `18446744073709551615` gives
`2 ^ 64 - 1`; `18446744073709551616`, the empty value, a sign, an underscore
and a decimal point give no entry. -/
theorem statsLine_value_exact_witness :
    statsLine [] "k : 007".toList = [("k".toList, 7)] ∧
    getDeviceStats (some "k : 18446744073709551615\n".toList) =
      ([("k".toList, 2 ^ 64 - 1)], none) ∧
    getDeviceStats (some "k : 18446744073709551616\n".toList) = ([], none) ∧
    getDeviceStats (some "k : \n".toList) = ([], none) ∧
    getDeviceStats (some "k : +5\n".toList) = ([], none) ∧
    getDeviceStats (some "k : -5\n".toList) = ([], none) ∧
    getDeviceStats (some "k : 1_000\n".toList) = ([], none) ∧
    getDeviceStats (some "k : 1.5\n".toList) = ([], none) ∧
    getDeviceStats (some "k : 0x10\n".toList) = ([], none) :=
  ⟨(statsLine_value_exact [] [] [' '] [' '] [] "k".toList "007".toList
      (by decide) (by decide) (by decide) (by decide) (by decide) (by decide)
      (by decide)).trans (by decide),
   by decide, by decide, by decide, by decide, by decide, by decide, by decide, by decide⟩

/-- C14: for every statistics output, the mapping `getDeviceStats` returns has
one entry for each key of a valid line the scanner delivers, and the value at a
key `k` is the value of the last valid line whose trimmed left part is `k`; the
number of entries is the number of distinct keys among the valid lines, not the
number of valid lines: the two valid lines `a : 1` and `a : 2` give the one
entry `a -> 2`.  The scanner delivers all the lines of an output in which each
line fits its buffer. -/
theorem getDeviceStats_last_value_wins (out : GoString) :
    (∀ k n, List.lookup k (getDeviceStats (some out)).1 = some n ↔
      ∃ l1 line l2, (scanLines out).1 = l1 ++ line :: l2 ∧ KeyDigits line k n ∧
        ∀ u ∈ l2, ∀ n2, ¬ KeyDigits u k n2) ∧
    ((getDeviceStats (some out)).1.map Prod.fst).Nodup ∧
    (∀ k, k ∈ (getDeviceStats (some out)).1.map Prod.fst ↔
      ∃ line ∈ (scanLines out).1, ∃ n, KeyDigits line k n) ∧
    (getDeviceStats (some out)).1.length =
      Set.ncard {k | ∃ line ∈ (scanLines out).1, ∃ n, KeyDigits line k n} ∧
    getDeviceStats (some "a : 1\na : 2\n".toList) = ([("a".toList, 2)], none) ∧
    ((∀ l ∈ rawLines out, utf8Len l < MaxScanTokenSize) →
      scanLines out = ((rawLines out).map dropCR, false)) := by
  refine ⟨lookup_getDeviceStats out, keys_nodup_getDeviceStats _,
    mem_keys_getDeviceStats out, ?_, by decide, scanLines_of_fit out⟩
  rw [← List.length_map (getDeviceStats (some out)).1 Prod.fst]
  exact length_eq_ncard_of_nodup _ _ (keys_nodup_getDeviceStats _)
    (mem_keys_getDeviceStats out)

/-- C17: every key of a mapping `getDeviceStats` returns has no `':'`, no
newline and no white space at its ends; the empty string is a key exactly when
the scanner delivers a valid line with nothing but white space before its `':'`,
as the line `: 5` shows. -/
theorem getDeviceStats_keys_trimmed (run : CmdResult) :
    (∀ k ∈ (getDeviceStats run).1.map Prod.fst, ':' ∉ k ∧ '\n' ∉ k ∧ Trimmed k) ∧
    (∀ out : GoString, [] ∈ (getDeviceStats (some out)).1.map Prod.fst ↔
      ∃ line ∈ (scanLines out).1, (∃ k n, KeyDigits line k n) ∧
        ∃ w rest, line = w ++ ':' :: rest ∧ AllSpace w) ∧
    getDeviceStats (some ": 5".toList) = ([([], 5)], none) := by
  refine ⟨?_, ?_, by decide⟩
  · intro k hk
    cases run with
    | none => simp [getDeviceStats] at hk
    | some out =>
      obtain ⟨line, hline, n, hkd⟩ := (mem_keys_getDeviceStats out k).mp hk
      have hsub := KeyDigits_key_subset line k n hkd
      obtain ⟨w1, w2, w3, w4, ds, _, _, _, _, _, hcolon, htrim, _⟩ := hkd
      exact ⟨hcolon, fun hm => scanLines_no_newline out line hline (hsub _ hm), htrim⟩
  · intro out
    rw [mem_keys_getDeviceStats]
    constructor
    · rintro ⟨line, hline, n, hkd⟩
      refine ⟨line, hline, ⟨[], n, hkd⟩, ?_⟩
      obtain ⟨w1, w2, w3, w4, ds, hl, h1, h2, _⟩ := hkd
      refine ⟨w1 ++ w2, w3 ++ ds ++ w4, by simpa using hl, ?_⟩
      intro c hc
      rcases List.mem_append.mp hc with h | h
      · exact h1 c h
      · exact h2 c h
    · rintro ⟨line, hline, ⟨k, n, hkd⟩, w, rest, hl, hw⟩
      have hk := KeyDigits_blank_left line k n w rest hkd hl hw
      subst hk
      exact ⟨line, hline, n, hkd⟩

/-- C15: the table of `emitStats` has 55 pairs whose keys are pairwise distinct
and whose descriptors are pairwise distinct; the 57 fully-qualified names that
`NewErdmaCollector` builds (the namespace `erdma`, the subsystem and the name
joined by `_`) are pairwise distinct; so that, for every snapshot, no two
samples of `emitStats` have the same metric name and the same labels. -/
theorem emitCalls_no_collision :
    (emitCalls NewErdmaCollector).length = 55 ∧
    ((emitCalls NewErdmaCollector).map Prod.snd).Nodup ∧
    ((emitCalls NewErdmaCollector).map Prod.fst).Nodup ∧
    (Describe NewErdmaCollector).length = 57 ∧
    ((Describe NewErdmaCollector).map Desc.fqName).Nodup ∧
    (∀ d ∈ Describe NewErdmaCollector, "erdma_".toList <+: d.fqName.toList) ∧
    ∀ (device nodeName : GoString) (stats : Stats),
      ((emitStats NewErdmaCollector device nodeName stats).map
        (fun s => (s.desc.fqName, s.labelValues))).Nodup :=
  ⟨rfl, emitCalls_keys_nodup _, emitCalls_descs_nodup, rfl, Describe_names_nodup, by decide,
    emitStats_samples_nodup⟩

/-- C16: `Describe` sends the 57 descriptors of the collector, each one once:
the version descriptor, the identity descriptor and the 55 descriptors of the
table of `emitStats`; every descriptor of a sample of `Collect` or of
`emitStats` is one of them, and each of them is the descriptor of a sample of
`Collect` in some scrape. -/
theorem Describe_agrees_with_Collect (c : ErdmaCollector) :
    Describe c = c.versionDesc :: c.deviceGUIDDesc :: (emitCalls c).map Prod.fst ∧
    (Describe c).length = 57 ∧
    (Describe NewErdmaCollector).Nodup ∧
    (∀ env : Env, ∀ s ∈ Collect c env, s.desc ∈ Describe c) ∧
    (∀ (device nodeName : GoString) (stats : Stats),
      ∀ s ∈ emitStats c device nodeName stats, s.desc ∈ Describe c) ∧
    (∀ d ∈ Describe c, ∃ env : Env, ∃ s ∈ Collect c env, s.desc = d) := by
  refine ⟨rfl, rfl, Describe_nodup, Collect_desc_mem c, ?_, Describe_desc_emitted c⟩
  intro device nodeName stats s hs
  rw [Describe_eq]
  exact List.mem_cons_of_mem _ (List.mem_cons_of_mem _ (emitStats_desc_mem c _ _ _ s hs))

end Erdma
